import Mathlib

/-!
Verification development for the streamed-chat client in
`src/frontend/landing/src/App.jsx`.

The JavaScript is embedded shallowly:

* strings are modelled as `List Char` (`Str`), matching JavaScript's view of
  a string as a sequence of characters;
* the markdown-to-sections parser `parseAssistantSections` (App.jsx:60-108),
  the inline-emphasis stripper `inlineClean` (App.jsx:58) and the reference
  normalizer `normalizeReferences` (App.jsx:110-117) are translated as pure
  functions;
* the React state touched by the stream loop (the `messages` array, the
  `streamingAssistantIndex` ref and the loop-local flags `receivedChunk`,
  `receivedError`, `shouldAbort`) is packaged in `LoopState`, and each
  mutator (`patchAssistantMessage`, `appendAssistantDelta`,
  `applyAssistantReferences`, `overwriteAssistant`, App.jsx:288-310) becomes
  a `LoopState` transformer;
* a line's `JSON.parse` outcome is modelled by `Option ParsedJson`:
  `none` for a parse failure, `some .jnull` for the JSON value `null`
  (on which `event.type` throws a TypeError), and `some (.obj ...)` for the
  flat event objects the backend emits;
* the byte stream is modelled as `List (List Nat)` (the successive
  `reader.read()` buffers) and `TextDecoder` with `stream: true` as the
  WHATWG incremental UTF-8 state machine `utf8Step`.
-/

/-- JavaScript strings, viewed as character sequences. -/
abbrev Str := List Char

/-- Characters of a Lean string literal. -/
def toL (s : String) : Str := s.data

/-- Whitespace as JavaScript defines it for `String.prototype.trim` and for
the regex class `\s`: WhiteSpace (TAB VT FF SP NBSP ZWNBSP and Unicode Zs)
plus LineTerminator (LF CR LS PS). -/
def isJsWs (c : Char) : Bool :=
  c.toNat = 9 || c.toNat = 10 || c.toNat = 11 || c.toNat = 12 || c.toNat = 13 ||
  c.toNat = 32 || c.toNat = 160 || c.toNat = 5760 ||
  (8192 ≤ c.toNat && c.toNat ≤ 8202) ||
  c.toNat = 8232 || c.toNat = 8233 || c.toNat = 8239 || c.toNat = 8287 ||
  c.toNat = 12288 || c.toNat = 65279

/-- JavaScript `String.prototype.trim`. -/
def jsTrim (l : Str) : Str :=
  ((l.dropWhile isJsWs).reverse.dropWhile isJsWs).reverse

/-- JavaScript `String.prototype.toLowerCase`, restricted to the ASCII
lowering that is relevant to the `'## references'` prefix test (no character
outside ASCII lowercases onto the ASCII characters of that marker). -/
def lowerL (l : Str) : Str := l.map Char.toLower

/-- JavaScript `String.prototype.startsWith` on character lists. -/
def isPrefixL : Str → Str → Bool
  | [], _ => true
  | _ :: _, [] => false
  | a :: as, b :: bs => if a = b then isPrefixL as bs else false

/-- JavaScript `string.split('\n')`. -/
def splitLinesL : Str → List Str
  | [] => [[]]
  | c :: rest =>
    if c = '\n' then [] :: splitLinesL rest
    else
      match splitLinesL rest with
      | [] => [[c]]
      | l :: ls => (c :: l) :: ls

/-- `Array.prototype.join('\n')`-style interleaving, used to state the
decoder round-trip. -/
def intercalateL (sep : Str) : List Str → Str
  | [] => []
  | [x] => x
  | x :: y :: xs => x ++ sep ++ intercalateL sep (y :: xs)

/-- Concatenation of a list of lists (buffer concatenation). -/
def flatL : List (List α) → List α
  | [] => []
  | x :: xs => x ++ flatL xs

/-! ## inlineClean (App.jsx:58)

`const inlineClean = (text = '') => text.replace(/\*\*(.*?)\*\*/g, '$1');`

`splitAtStars l` finds the leftmost adjacent `**` in `l` — the closing
delimiter the non-greedy `(.*?)` stops at — and returns the text before it
and the text after it; it refuses to cross a line terminator, which `.`
does not match. -/



/-- Line terminators, which neither `.` nor `(.*?)` may match in a
JavaScript regex without the `s` flag. -/
def isLineTerm (c : Char) : Bool :=
  c.toNat = 10 || c.toNat = 13 || c.toNat = 8232 || c.toNat = 8233

def splitAtStars : Str → Option (Str × Str)
  | '*' :: '*' :: rest => some ([], rest)
  | c :: rest =>
    if isLineTerm c then none
    else (splitAtStars rest).map (fun p => (c :: p.1, p.2))
  | [] => none

/-- The global regex replace `text.replace(/\*\*(.*?)\*\*/g, '$1')`:
scan left to right; at an opening `**` with a closing `**` on the same line,
drop both delimiters and keep the enclosed text, continuing after the
closing delimiter; an unmatched `**` is left as ordinary text.

The scan is written with explicit fuel so it is structurally recursive and
computes by kernel reduction; every step strictly shrinks the text being
scanned (a match removes the four delimiter characters and the enclosed
text from the front; otherwise one character is emitted), so fuel equal to
the initial text length is never exhausted. -/
def inlineCleanGo : Nat → Str → Str
  | _, [] => []
  | 0, l => l
  | fuel + 1, '*' :: '*' :: rest =>
    match splitAtStars rest with
    | some (inner, rest2) => inner ++ inlineCleanGo fuel rest2
    | none => '*' :: inlineCleanGo fuel ('*' :: rest)
  | fuel + 1, c :: rest => c :: inlineCleanGo fuel rest

def inlineClean (l : Str) : Str := inlineCleanGo l.length l

/-! ## parseAssistantSections (App.jsx:60-108) -/



inductive Block where
  | paragraph (text : Str)
  | list (items : List Str)
deriving DecidableEq

structure DSection where
  heading : Str
  body : List Block
deriving DecidableEq

/-- `'---'` -/
def dashMarker : Str := toL "---"

/-- `'## references'` -/
def refsMarker : Str := toL "## references"

/-- `'## '` -/
def headMarker : Str := toL "## "

/-- `'- '` -/
def bulletMarker : Str := toL "- "

/-- Appending a bullet to the current body: coalesce into a trailing list
block if there is one, otherwise open a new list block (App.jsx:92-97). -/
def addBullet (body : List Block) (bullet : Str) : List Block :=
  match body.getLast? with
  | some (Block.list items) => body.dropLast ++ [Block.list (items ++ [bullet])]
  | _ => body ++ [Block.list [bullet]]

/-- `none ↦ []`, `some c ↦ [c]`: the sections pushed when the current
section context is closed. -/
def emitOpt : Option DSection → List DSection
  | none => []
  | some c => [c]

/-- The line loop of `parseAssistantSections` (App.jsx:64-105), with the
mutable `sections` array rendered as the emitted output prefix and the
mutable `current` as the `Option DSection` argument. -/
def parseLoop : List Str → Option DSection → List DSection
  | [], cur => emitOpt cur
  | rawLine :: rest, cur =>
    let line := jsTrim rawLine
    if line = [] ∨ line = dashMarker then
      parseLoop rest cur
    else if isPrefixL refsMarker (lowerL line) = true then
      emitOpt cur ++ parseLoop rest none
    else if isPrefixL headMarker line = true then
      emitOpt cur ++ parseLoop rest (some ⟨jsTrim (line.drop 3), []⟩)
    else
      let c := cur.getD ⟨[], []⟩
      if isPrefixL bulletMarker line = true then
        parseLoop rest (some ⟨c.heading, addBullet c.body (inlineClean (jsTrim (line.drop 2)))⟩)
      else
        parseLoop rest (some ⟨c.heading, c.body ++ [Block.paragraph (inlineClean line)]⟩)

/-- `parseAssistantSections` (App.jsx:60-108). -/
def parseAssistantSections (markdown : Str) : List DSection :=
  parseLoop (splitLinesL markdown) none

/-! ## normalizeReferences (App.jsx:110-117)

`ref.match(/^\[(\d+)\]\s*(.*?)\s*(?:—|-)\s*(https?:\/\/\S+)/)`

The regex is unwound into the equivalent deterministic scan: the anchored
`\[(\d+)\]` takes the maximal digit run after `[` and requires `]`; `\s*`
skips maximal whitespace (shorter choices put a whitespace character where
the non-whitespace separator or `h` of `http` must sit, so greedy matching
is deterministic here); the non-greedy `(.*?)` grows the title one
character at a time — never across a line terminator, which `.` cannot
match — until `\s*(?:—|-)\s*(https?:\/\/\S+)` matches the remainder. -/



structure NormRef where
  label : Str
  title : Str
  url : Str
deriving DecidableEq

/-- `\d` -/
def isDigitC (c : Char) : Bool := '0' ≤ c && c ≤ '9'

/-- `(https?:\/\/\S+)`: the literal scheme, then a maximal nonempty run of
non-whitespace characters (nothing follows `\S+`, so greedy = maximal). -/
def matchUrl (l : Str) : Option Str :=
  if isPrefixL (toL "https://") l then
    let run := (l.drop 8).takeWhile (fun c => !isJsWs c)
    if run = [] then none else some (l.take 8 ++ run)
  else if isPrefixL (toL "http://") l then
    let run := (l.drop 7).takeWhile (fun c => !isJsWs c)
    if run = [] then none else some (l.take 7 ++ run)
  else none

/-- `\s*(?:—|-)\s*(https?:\/\/\S+)` against the text following the title. -/
def matchSepUrl (l : Str) : Option Str :=
  match l.dropWhile isJsWs with
  | c :: rest =>
    if c = '—' ∨ c = '-' then matchUrl (rest.dropWhile isJsWs) else none
  | [] => none

/-- The non-greedy title scan: try the shortest title first, extending one
(non-line-terminator) character at a time; returns the captured title and
url groups. -/
def refScan : Str → Str → Option (Str × Str)
  | tRev, [] =>
    match matchSepUrl [] with
    | some url => some (tRev.reverse, url)
    | none => none
  | tRev, c :: rest2 =>
    match matchSepUrl (c :: rest2) with
    | some url => some (tRev.reverse, url)
    | none => if isLineTerm c then none else refScan (c :: tRev) rest2

/-- One entry of `normalizeReferences`: the matched groups on success, and
`{ label: '', title: ref, url: '' }` when the regex does not match. -/
def normalizeReference (ref : Str) : NormRef :=
  match ref with
  | '[' :: rest =>
    let ds := rest.takeWhile isDigitC
    if ds = [] then ⟨[], ref, []⟩
    else
      match rest.dropWhile isDigitC with
      | ']' :: r3 =>
        match refScan [] (r3.dropWhile isJsWs) with
        | some (title, url) => ⟨ds, title, url⟩
        | none => ⟨[], ref, []⟩
      | _ => ⟨[], ref, []⟩
  | _ => ⟨[], ref, []⟩

/-- `normalizeReferences` (App.jsx:110-117). -/
def normalizeReferences (refs : List Str) : List NormRef :=
  refs.map normalizeReference

/-! ## Conversation state and the mutators (App.jsx:272-310)

`LoopState` packages the React state the stream loop can touch: the
`messages` array, the `streamingAssistantIndex` ref (an `Int`, `-1` when no
message is active), and the loop-local flags of `sendMessage`
(`receivedChunk`, `receivedError`, `shouldAbort`), plus `crashed`, which
records that an exception escaped the event handler (as happens when a line
parses to JSON `null` and `event.type` throws). -/



inductive Role where
  | user
  | assistant
deriving DecidableEq

structure Message where
  role : Role
  content : Str
  references : List Str
deriving DecidableEq

/-- `const STREAMING_PLACEHOLDER = 'Synthesizing context…';` (App.jsx:118) -/
def STREAMING_PLACEHOLDER : Str := toL "Synthesizing context…"

/-- ASCII apostrophe. -/
def apos : Char := Char.ofNat 39

/-- `"I couldn't find anything for that query."` (App.jsx:396) -/
def noResultsText : Str :=
  toL "I couldn" ++ [apos] ++ toL "t find anything for that query."

/-- `'Search failed. Check the FastAPI logs.'` — the fixed text the catch
handler writes (App.jsx:399). -/
def catchText : Str := toL "Search failed. Check the FastAPI logs."

/-- `'Chat failed. Please retry.'` — the default for a falsy `event.message`
(App.jsx:368). -/
def errMessageFallback : Str := toL "Chat failed. Please retry."

/-- `'Chat failed.'` — the default for an empty error-response body
(App.jsx:335). -/
def chatFailedText : Str := toL "Chat failed."

structure LoopState where
  messages : List Message
  idx : Int
  receivedChunk : Bool
  receivedError : Bool
  shouldAbort : Bool
  crashed : Bool
deriving DecidableEq

/-- `prev.map((msg, idx) => (idx === target ? mutator(msg) : msg))` with the
running index carried explicitly. -/
def mapAtIdx (f : Message → Message) (target : Int) : Int → List Message → List Message
  | _, [] => []
  | i, m :: rest => (if i = target then f m else m) :: mapAtIdx f target (i + 1) rest

/-- `patchAssistantMessage` (App.jsx:288-295): no-op when the index ref is
negative, otherwise map the mutator over the message at that index. -/
def patchAssistantMessage (mutator : Message → Message) (s : LoopState) : LoopState :=
  if s.idx < 0 then s
  else { s with messages := mapAtIdx mutator s.idx 0 s.messages }

/-- `appendAssistantDelta` (App.jsx:297-302): the placeholder is replaced by
the first delta; afterwards deltas append (`msg.content || ''` only differs
from `msg.content` on the empty string, where they agree). -/
def appendAssistantDelta (delta : Str) (s : LoopState) : LoopState :=
  patchAssistantMessage
    (fun msg =>
      { msg with
        content := (if msg.content = STREAMING_PLACEHOLDER then [] else msg.content) ++ delta })
    s

/-- `applyAssistantReferences` (App.jsx:304-306): replace, never merge. -/
def applyAssistantReferences (refs : List Str) (s : LoopState) : LoopState :=
  patchAssistantMessage (fun msg => { msg with references := refs }) s

/-- `overwriteAssistant` (App.jsx:308-310). -/
def overwriteAssistant (text : Str) (s : LoopState) : LoopState :=
  patchAssistantMessage (fun msg => { msg with content := text, references := [] }) s

/-! ## Event dispatch (App.jsx:349-374)

A line's `JSON.parse` outcome. `JSON.parse` can throw (modelled by `none`
at the call sites), return `null` (`jnull`, on which the subsequent
`event.type` access throws a TypeError), or return a value whose `type`
property is read: `obj t d r m` carries the `type` field when it is a
string (any other shape of `type` hits the switch's default branch exactly
like an absent field), and the `delta` / `references` / `message` payload
fields when present. -/

inductive ParsedJson where
  | jnull
  | obj (type : Option Str) (delta : Option Str) (references : Option (List Str))
      (message : Option Str)
deriving DecidableEq

/-- `'answer_chunk'` -/
def chunkTag : Str := toL "answer_chunk"

/-- `'references'` -/
def refsTag : Str := toL "references"

/-- `'error'` -/
def errTag : Str := toL "error"

/-- The `type` field read by the switch, when the parse produced a value
whose property access does not throw. -/
def eventTag : Option ParsedJson → Option Str
  | some (ParsedJson.obj t _ _ _) => t
  | _ => none

/-- The body of `processEventLine` after `JSON.parse` (App.jsx:351-373):
`none` is the caught parse failure (silent discard); `jnull` is the
TypeError thrown by `event.type` on `null`, which escapes the handler
(`crashed`); otherwise the switch on `event.type`. -/
def processEvent (p : Option ParsedJson) (s : LoopState) : LoopState :=
  match p with
  | none => s
  | some ParsedJson.jnull => { s with crashed := true }
  | some (ParsedJson.obj type delta refs msg) =>
    match type with
    | none => s
    | some t =>
      if t = chunkTag then
        appendAssistantDelta (delta.getD []) { s with receivedChunk := true }
      else if t = refsTag then
        applyAssistantReferences (refs.getD []) s
      else if t = errTag then
        let m := msg.getD []
        { overwriteAssistant (if m = [] then errMessageFallback else m)
            { s with receivedError := true } with
          shouldAbort := true }
      else s

/-- `processEventLine` on a nonempty line whose parse outcome is `p`:
the `shouldAbort` early return (App.jsx:350). -/
def processLineEvent (p : Option ParsedJson) (s : LoopState) : LoopState :=
  if s.shouldAbort then s else processEvent p s

/-- `processEventLine` (App.jsx:349-374); `decode` stands for `JSON.parse`
on the (already trimmed) line. -/
def processEventLine (line : Str) (decode : Str → Option ParsedJson) (s : LoopState) :
    LoopState :=
  if line = [] then s else processLineEvent (decode line) s

/-- Processing a sequence of parsed nonempty lines in arrival order; a
thrown TypeError (`crashed`) aborts the iteration, as an exception aborts
`forEach` and the read loop. -/
def runEvents : List (Option ParsedJson) → LoopState → LoopState
  | [], s => s
  | e :: es, s =>
    let s1 := processLineEvent e s
    if s1.crashed then s1 else runEvents es s1

/-- `lines.forEach((line) => processEventLine(line.trim()))` over one
buffer's worth of split lines, with the same exception propagation. -/
def runLines (decode : Str → Option ParsedJson) : List Str → LoopState → LoopState
  | [], s => s
  | l :: ls, s =>
    let s1 := processEventLine l decode s
    if s1.crashed then s1 else runLines decode ls s1

/-- The stream-end step (App.jsx:395-397): when no chunk and no error were
received, overwrite the active message with the fixed no-results text. -/
def applyStreamEnd (s : LoopState) : LoopState :=
  if s.receivedChunk = false ∧ s.receivedError = false then
    overwriteAssistant noResultsText s
  else s

/-- `setMessages` + index update on submission (App.jsx:319-325): append the
user entry and the placeholder assistant entry, point the index at the
latter, reset the loop flags. `q` is the already-trimmed input. -/
def startRequest (prev : List Message) (q : Str) : LoopState :=
  let msgs := prev ++ [⟨Role.user, q, []⟩, ⟨Role.assistant, STREAMING_PLACEHOLDER, []⟩]
  ⟨msgs, (msgs.length : Int) - 1, false, false, false, false⟩

/-- Shorthand for a parsed `answer_chunk` event. -/
def chunkEvent (d : Option Str) : Option ParsedJson :=
  some (ParsedJson.obj (some chunkTag) d none none)

/-- Shorthand for a parsed `references` event. -/
def refsEvent (r : List Str) : Option ParsedJson :=
  some (ParsedJson.obj (some refsTag) none (some r) none)

/-- Shorthand for a parsed `error` event. -/
def errEvent (m : Option Str) : Option ParsedJson :=
  some (ParsedJson.obj (some errTag) none none m)

/-! ## TextDecoder with `stream: true` (App.jsx:343, 381)

The WHATWG UTF-8 decoder, as the byte-at-a-time state machine of the
Encoding Standard: `needed` continuation bytes still expected, the
partially accumulated code point `cp`, and the `lo`/`hi` bounds on the next
byte (tightened after `E0`/`ED`/`F0`/`F4` lead bytes to exclude overlongs
and surrogates). Invalid bytes emit U+FFFD; an invalid continuation byte
emits U+FFFD and reprocesses the byte in the clean state. Because the
decoder advances one byte at a time, carrying its state across
`decoder.decode(value, {stream: true})` calls, a multi-byte character split
across buffers is decoded exactly as if the buffers were one. -/



structure Utf8State where
  needed : Nat
  cp : Nat
  lo : Nat
  hi : Nat
deriving DecidableEq

def utf8Init : Utf8State := ⟨0, 0, 128, 191⟩

/-- U+FFFD. -/
def replChar : Char := Char.ofNat 65533

/-- Handling of byte `b` in the clean state (no continuation expected). -/
def utf8Start (b : Nat) : Utf8State × List Char :=
  if b ≤ 127 then (utf8Init, [Char.ofNat b])
  else if 194 ≤ b ∧ b ≤ 223 then (⟨1, b % 32, 128, 191⟩, [])
  else if b = 224 then (⟨2, b % 16, 160, 191⟩, [])
  else if b = 237 then (⟨2, b % 16, 128, 159⟩, [])
  else if 225 ≤ b ∧ b ≤ 239 then (⟨2, b % 16, 128, 191⟩, [])
  else if b = 240 then (⟨3, b % 8, 144, 191⟩, [])
  else if 241 ≤ b ∧ b ≤ 243 then (⟨3, b % 8, 128, 191⟩, [])
  else if b = 244 then (⟨3, b % 8, 128, 143⟩, [])
  else (utf8Init, [replChar])

/-- One byte of the WHATWG UTF-8 decoder. -/
def utf8Step : Utf8State → Nat → Utf8State × List Char
  | ⟨0, _, _, _⟩, b => utf8Start b
  | ⟨needed + 1, cp, lo, hi⟩, b =>
    if lo ≤ b ∧ b ≤ hi then
      if needed = 0 then (utf8Init, [Char.ofNat (cp * 64 + b % 64)])
      else (⟨needed, cp * 64 + b % 64, 128, 191⟩, [])
    else ((utf8Start b).1, replChar :: (utf8Start b).2)

/-- Running the decoder over a buffer, threading the state. -/
def utf8Run (st : Utf8State) : List Nat → Utf8State × List Char
  | [] => (st, [])
  | b :: bs =>
    let p := utf8Step st b
    let q := utf8Run p.1 bs
    (q.1, p.2 ++ q.2)

/-- UTF-8 encoding of a scalar value, by arithmetic on the code point. -/
def encodeNat (v : Nat) : List Nat :=
  if v < 128 then [v]
  else if v < 2048 then [192 + v / 64, 128 + v % 64]
  else if v < 65536 then [224 + v / 4096, 128 + v / 64 % 64, 128 + v % 64]
  else [240 + v / 262144, 128 + v / 4096 % 64, 128 + v / 64 % 64, 128 + v % 64]

def encodeChar (c : Char) : List Nat := encodeNat c.toNat

/-- UTF-8 bytes of a text. -/
def utf8Encode (s : Str) : List Nat := flatL (s.map encodeChar)

/-- The Event Decoder (App.jsx:376-393) without the dispatcher: bytes
arrive buffer by buffer, each buffer is decoded with the carried
`TextDecoder` state and appended to the carry-over `buffer`, which is split
on `'\n'`; all pieces but the last are the emitted lines and the last piece
is carried over; at stream end the residual buffer is the final flushed
line. -/
def linesLoop : Utf8State → Str → List (List Nat) → List Str
  | _, buffer, [] => [buffer]
  | d, buffer, v :: bs =>
    let p := utf8Run d v
    let pieces := splitLinesL (buffer ++ p.2)
    pieces.dropLast ++ linesLoop p.1 (pieces.getLastD []) bs

/-- The decoder pipeline applied to a byte-buffer sequence from a clean
start. -/
def decodedLines (bufs : List (List Nat)) : List Str :=
  linesLoop utf8Init [] bufs

/-! ## sendMessage (App.jsx:312-404)

The transport outcome of one request: the `fetch` promise rejecting, a
non-ok response carrying its body text, a response body without a reader,
or a chunked stream of byte buffers. -/

inductive FetchOutcome where
  | fetchFailure
  | httpError (bodyText : Str)
  | noReader
  | stream (bufs : List (List Nat))

/-- The component state after `sendMessage` settles: the messages array,
the `streamingAssistantIndex` ref, the `isLoading` flag, and whether the
catch handler ran. -/
structure SendResult where
  messages : List Message
  idx : Int
  isLoading : Bool
  caughtFailure : Bool
deriving DecidableEq

/-- `new Error(errorText || 'Chat failed.')` — the message of the error
thrown for a non-ok response (App.jsx:334-335). The catch handler discards
it (App.jsx:398-399). -/
def httpErrorThrownText (body : Str) : Str :=
  if body = [] then chatFailedText else body

/-- The `while (true)` read loop (App.jsx:376-389): decode the buffer with
the carried `TextDecoder` state, split off complete lines, dispatch each
trimmed line, and stop on an escaped exception (which also aborts the loop)
or on `shouldAbort` (cancel + break). Returns the loop state and the
residual buffer. -/
def streamLoopB (decode : Str → Option ParsedJson) :
    List (List Nat) → Utf8State → Str → LoopState → LoopState × Str
  | [], _, buffer, s => (s, buffer)
  | v :: bs, d, buffer, s =>
    let p := utf8Run d v
    let pieces := splitLinesL (buffer ++ p.2)
    let s1 := runLines decode (pieces.dropLast.map jsTrim) s
    if s1.crashed then (s1, pieces.getLastD [])
    else if s1.shouldAbort then (s1, pieces.getLastD [])
    else streamLoopB decode bs p.1 (pieces.getLastD []) s1

/-- After the read loop (App.jsx:391-399): if an exception escaped, the
catch handler overwrites the active message with the fixed failure text;
otherwise the residual buffer is dispatched as a final line when nonempty
and no abort happened (App.jsx:391-393) — which can itself throw — and
finally the no-results fallback check runs (App.jsx:395-397). -/
def finishStream (decode : Str → Option ParsedJson) (sb : LoopState × Str) : LoopState :=
  if sb.1.crashed then overwriteAssistant catchText sb.1
  else
    let s1 :=
      if sb.1.shouldAbort = false ∧ jsTrim sb.2 ≠ [] then
        processEventLine (jsTrim sb.2) decode sb.1
      else sb.1
    if s1.crashed then overwriteAssistant catchText s1
    else applyStreamEnd s1

/-- `sendMessage` (App.jsx:312-404): the in-flight guard, the empty-input
guard, the submission of the user and placeholder messages, the four
transport outcomes, the catch handler (which writes the fixed
`'Search failed. Check the FastAPI logs.'` text whatever the thrown error
was), and the `finally` block resetting `isLoading` and the index ref. -/
def sendMessage (decode : Str → Option ParsedJson) (prev : List Message) (idx0 : Int)
    (isLoading : Bool) (input : Str) (outcome : FetchOutcome) : SendResult :=
  if isLoading then ⟨prev, idx0, true, false⟩
  else
    let trimmed := jsTrim input
    if trimmed = [] then ⟨prev, idx0, false, false⟩
    else
      let s0 := startRequest prev trimmed
      match outcome with
      | FetchOutcome.fetchFailure =>
        ⟨(overwriteAssistant catchText s0).messages, -1, false, true⟩
      | FetchOutcome.httpError _ =>
        ⟨(overwriteAssistant catchText s0).messages, -1, false, true⟩
      | FetchOutcome.noReader =>
        ⟨(overwriteAssistant catchText s0).messages, -1, false, true⟩
      | FetchOutcome.stream bufs =>
        let sF := finishStream decode (streamLoopB decode bufs utf8Init [] s0)
        ⟨sF.messages, -1, false, sF.crashed⟩

/-- `JSON.parse` model for a stream containing the single line `null`. -/
def nullDecode : Str → Option ParsedJson :=
  fun l => if l = toL "null" then some ParsedJson.jnull else none

/-- A parsed `answer_chunk` or `references` event. -/
def isChunkOrRefs : Option ParsedJson → Bool
  | some (ParsedJson.obj (some t) _ _ _) => t = chunkTag || t = refsTag
  | _ => false

/-- Events allowed in a stream that "ends with zero `answer_chunk` events
and no error": parse failures, `references`, and unknown tags — not
`answer_chunk`, not `error`, and not JSON `null` (whose TypeError would
abort the stream before the transport signals done). -/
def c8EventOk : Option ParsedJson → Bool
  | none => true
  | some ParsedJson.jnull => false
  | some (ParsedJson.obj none _ _ _) => true
  | some (ParsedJson.obj (some t) _ _ _) => !(t = chunkTag) && !(t = errTag)

/-! ## Claim C6: idempotence of the markdown parser

Modelled from the spec: the repository has no serializer; the claim's
`render` "re-serializes the parsed sections back to their block text", so
`renderSections` below follows the spec's words — a `## ` heading line for
a non-empty heading, one line per paragraph, one `- ` line per list item,
lines joined with `'\n'`. -/



def renderBlockLines : Block → List Str
  | Block.paragraph t => [t]
  | Block.list items => items.map (fun i => '-' :: ' ' :: i)

def renderSectionLines (s : DSection) : List Str :=
  (if s.heading = [] then [] else [('#' :: '#' :: ' ' :: s.heading)]) ++
    flatL (s.body.map renderBlockLines)

/-- Modelled from the spec: re-serializing parsed sections to text. -/
def renderSections (S : List DSection) : Str :=
  intercalateL ['\n'] (flatL (S.map renderSectionLines))

/-! Stability: the conditions under which a parsed section survives a
render/re-parse round trip unchanged. Parsing is NOT idempotent in general
(see `c6_counterexample`); it is on sections whose text does not
re-trigger any of the parser's structural or inline rules. -/



def isListBlock : Block → Bool
  | Block.list _ => true
  | _ => false

def headIsList : List Block → Bool
  | b :: _ => isListBlock b
  | [] => false

def endsWithList (l : List Block) : Bool :=
  match l.getLast? with
  | some (Block.list _) => true
  | _ => false

/-- No two adjacent list blocks (adjacent rendered `- ` lines would be
coalesced into one list on re-parse). -/
def noAdjLists : List Block → Bool
  | [] => true
  | b :: rest => !(isListBlock b && headIsList rest) && noAdjLists rest

/-- A paragraph text that re-parses to itself: nonempty, trimmed, fixed by
emphasis-stripping, single-line, and not re-readable as a `---` separator,
bullet, heading or references line. -/
def stableText (t : Str) : Prop :=
  t ≠ [] ∧ jsTrim t = t ∧ inlineClean t = t ∧ '\n' ∉ t ∧ t ≠ dashMarker ∧
  isPrefixL bulletMarker t = false ∧ isPrefixL headMarker t = false ∧
  isPrefixL refsMarker (lowerL t) = false

instance (t : Str) : Decidable (stableText t) :=
  inferInstanceAs (Decidable (t ≠ [] ∧ jsTrim t = t ∧ inlineClean t = t ∧ '\n' ∉ t ∧
    t ≠ dashMarker ∧ isPrefixL bulletMarker t = false ∧ isPrefixL headMarker t = false ∧
    isPrefixL refsMarker (lowerL t) = false))

/-- A list item that re-parses to itself from its `- ` line. -/
def stableItem (i : Str) : Prop :=
  i ≠ [] ∧ jsTrim i = i ∧ inlineClean i = i ∧ '\n' ∉ i ∧
  jsTrim ('-' :: ' ' :: i) = ('-' :: ' ' :: i)

instance (i : Str) : Decidable (stableItem i) :=
  inferInstanceAs (Decidable (i ≠ [] ∧ jsTrim i = i ∧ inlineClean i = i ∧ '\n' ∉ i ∧
    jsTrim ('-' :: ' ' :: i) = ('-' :: ' ' :: i)))

/-- A heading whose `## ` line re-parses to the same heading and is not
swallowed by the case-insensitive `## references` rule. -/
def stableHeading (h : Str) : Prop :=
  h ≠ [] ∧ '\n' ∉ h ∧ jsTrim h = h ∧
  jsTrim ('#' :: '#' :: ' ' :: h) = ('#' :: '#' :: ' ' :: h) ∧
  isPrefixL (toL "references") (lowerL h) = false

instance (h : Str) : Decidable (stableHeading h) :=
  inferInstanceAs (Decidable (h ≠ [] ∧ '\n' ∉ h ∧ jsTrim h = h ∧
    jsTrim ('#' :: '#' :: ' ' :: h) = ('#' :: '#' :: ' ' :: h) ∧
    isPrefixL (toL "references") (lowerL h) = false))

def stableBlock : Block → Prop
  | Block.paragraph t => stableText t
  | Block.list items => items ≠ [] ∧ ∀ i ∈ items, stableItem i

instance : (b : Block) → Decidable (stableBlock b)
  | Block.paragraph t => inferInstanceAs (Decidable (stableText t))
  | Block.list items => inferInstanceAs (Decidable (items ≠ [] ∧ ∀ i ∈ items, stableItem i))

def stableBody (body : List Block) : Prop :=
  (∀ b ∈ body, stableBlock b) ∧ noAdjLists body = true

instance (body : List Block) : Decidable (stableBody body) :=
  inferInstanceAs (Decidable ((∀ b ∈ body, stableBlock b) ∧ noAdjLists body = true))

/-- Render-stable section lists: every section after the first has a
nonempty stable heading; the first may instead be an implicit section
(empty heading, nonempty body); bodies are stable with no two adjacent
lists. -/
def stableSections : List DSection → Prop
  | [] => True
  | s :: rest =>
    (stableHeading s.heading ∨ (s.heading = [] ∧ s.body ≠ [])) ∧ stableBody s.body ∧
    ∀ s2 ∈ rest, stableHeading s2.heading ∧ stableBody s2.body

instance : (S : List DSection) → Decidable (stableSections S)
  | [] => inferInstanceAs (Decidable True)
  | s :: rest =>
    inferInstanceAs (Decidable
      ((stableHeading s.heading ∨ (s.heading = [] ∧ s.body ≠ [])) ∧ stableBody s.body ∧
        ∀ s2 ∈ rest, stableHeading s2.heading ∧ stableBody s2.body))

/-! ## Theorems -/

/-- Claim C1 (as stated) is false: on the quoted input the parser emits a
second, implicit section for the line following `## References` — the
`[1] Guide — https://a` line becomes a paragraph in a new heading-less
section — so the result is not the single `Summary` section. -/
theorem c1_counterexample :
    parseAssistantSections
        (toL "## Summary\n- point one\n- point two\n## References\n[1] Guide — https://a") ≠
      [⟨toL "Summary", [Block.list [toL "point one", toL "point two"]]⟩] := by
  decide

/-- Claim C1, amended: parsing the quoted input yields the `Summary`
section with its two-item list, and the `## References` line itself emits
no section, but the line following it opens a new implicit section with
empty heading whose body is the single paragraph `[1] Guide — https://a`. -/
theorem c1_amended :
    parseAssistantSections
        (toL "## Summary\n- point one\n- point two\n## References\n[1] Guide — https://a") =
      [⟨toL "Summary", [Block.list [toL "point one", toL "point two"]]⟩,
       ⟨[], [Block.paragraph (toL "[1] Guide — https://a")]⟩] := by
  decide

/-- Claim C5: applying `[chunk("Hello "), chunk("world"),
references(["[1] Docs — https://x"])]` to a fresh Pending assistant message
and then the stream-end step yields content `"Hello world"` (the first
delta replaces the placeholder, the second appends), the raw reference list
`["[1] Docs — https://x"]`, no error (Finalized), and the normalized
references are `[{label:"1", title:"Docs", url:"https://x"}]`. -/
theorem c5_stream_events_finalize :
    (let s := applyStreamEnd (runEvents
        [chunkEvent (some (toL "Hello ")), chunkEvent (some (toL "world")),
         refsEvent [toL "[1] Docs — https://x"]]
        (startRequest [] (toL "hello")))
     s.messages.get? 1 =
        some ⟨Role.assistant, toL "Hello world", [toL "[1] Docs — https://x"]⟩ ∧
      s.receivedError = false ∧ s.receivedChunk = true) ∧
    normalizeReferences [toL "[1] Docs — https://x"] =
      [⟨toL "1", toL "Docs", toL "https://x"⟩] := by
  constructor
  · refine ⟨?_, rfl, rfl⟩
    decide
  · decide

/-- Claim C10: an `answer_chunk` whose `delta` is absent (left) or the empty
string (right) still sets `receivedChunk`, so the no-results fallback is
not applied at stream end; the placeholder is cleared and the message ends
Finalized with empty content. -/
theorem c10_empty_delta_counts_as_chunk :
    (let s := applyStreamEnd (runEvents [chunkEvent none] (startRequest [] (toL "q")))
     s.messages.get? 1 = some ⟨Role.assistant, [], []⟩ ∧
       s.receivedChunk = true ∧ s.receivedError = false) ∧
    (let s := applyStreamEnd (runEvents [chunkEvent (some [])] (startRequest [] (toL "q")))
     s.messages.get? 1 = some ⟨Role.assistant, [], []⟩ ∧
       s.receivedChunk = true ∧ s.receivedError = false) := by
  constructor
  · exact ⟨by decide, rfl, rfl⟩
  · exact ⟨by decide, rfl, rfl⟩

theorem utf8Step_clean (b : Nat) : utf8Step utf8Init b = utf8Start b := rfl

theorem utf8Start_ascii (b : Nat) (h : b ≤ 127) : utf8Start b = (utf8Init, [Char.ofNat b]) := by
  simp only [utf8Start]
  rw [if_pos h]

theorem utf8Start_lead2 (b : Nat) (h : 194 ≤ b ∧ b ≤ 223) :
    utf8Start b = (⟨1, b % 32, 128, 191⟩, []) := by
  simp only [utf8Start]
  rw [if_neg (by omega), if_pos h]

theorem utf8Start_e0 : utf8Start 224 = (⟨2, 0, 160, 191⟩, []) := by decide

theorem utf8Start_ed : utf8Start 237 = (⟨2, 13, 128, 159⟩, []) := by decide

theorem utf8Start_mid3 (b : Nat) (h1 : 225 ≤ b ∧ b ≤ 239) (h2 : ¬b = 237) :
    utf8Start b = (⟨2, b % 16, 128, 191⟩, []) := by
  simp only [utf8Start]
  rw [if_neg (by omega)]
  rw [if_neg (by omega), if_neg (by omega), if_neg h2, if_pos h1]

theorem utf8Start_f0 : utf8Start 240 = (⟨3, 0, 144, 191⟩, []) := by decide

theorem utf8Start_mid4 (b : Nat) (h : 241 ≤ b ∧ b ≤ 243) :
    utf8Start b = (⟨3, b % 8, 128, 191⟩, []) := by
  simp only [utf8Start]
  rw [if_neg (by omega), if_neg (by omega)]
  rw [if_neg (by omega), if_neg (by omega)]
  rw [if_neg (by omega), if_neg (by omega), if_pos h]

theorem utf8Start_f4 : utf8Start 244 = (⟨3, 4, 128, 143⟩, []) := by decide

theorem utf8Step_cont3 (cp lo hi b : Nat) (h : lo ≤ b ∧ b ≤ hi) :
    utf8Step ⟨3, cp, lo, hi⟩ b = (⟨2, cp * 64 + b % 64, 128, 191⟩, []) := by
  simp only [utf8Step]
  rw [if_pos h, if_neg (by omega)]

theorem utf8Step_cont2 (cp lo hi b : Nat) (h : lo ≤ b ∧ b ≤ hi) :
    utf8Step ⟨2, cp, lo, hi⟩ b = (⟨1, cp * 64 + b % 64, 128, 191⟩, []) := by
  simp only [utf8Step]
  rw [if_pos h, if_neg (by omega)]

theorem utf8Step_last (cp lo hi b : Nat) (h : lo ≤ b ∧ b ≤ hi) :
    utf8Step ⟨1, cp, lo, hi⟩ b = (utf8Init, [Char.ofNat (cp * 64 + b % 64)]) := by
  simp only [utf8Step]
  rw [if_pos h, if_pos trivial]

theorem utf8Run_encodeNat (n : Nat) (h : Nat.isValidChar n) :
    utf8Run utf8Init (encodeNat n) = (utf8Init, [Char.ofNat n]) := by
  have h1 : n < 1114112 ∧ ¬(55296 ≤ n ∧ n ≤ 57343) := by
    rcases h with h | h <;> omega
  by_cases c1 : n < 128
  · rw [show encodeNat n = [n] from by simp [encodeNat, c1]]
    have s1 := utf8Start_ascii n (by omega)
    rw [← utf8Step_clean] at s1
    simp [utf8Run, s1]
  · by_cases c2 : n < 2048
    · rw [show encodeNat n = [192 + n / 64, 128 + n % 64] from by
        simp [encodeNat, c1, c2]]
      have s1 : utf8Step utf8Init (192 + n / 64) = (⟨1, n / 64, 128, 191⟩, []) := by
        rw [utf8Step_clean, utf8Start_lead2 _ (by omega),
          show (192 + n / 64) % 32 = n / 64 from by omega]
      have s2 : utf8Step ⟨1, n / 64, 128, 191⟩ (128 + n % 64) =
          (utf8Init, [Char.ofNat n]) := by
        rw [utf8Step_last _ _ _ _ (by omega),
          show n / 64 * 64 + (128 + n % 64) % 64 = n from by omega]
      simp [utf8Run, s1, s2]
    · by_cases c3 : n < 65536
      · rw [show encodeNat n = [224 + n / 4096, 128 + n / 64 % 64, 128 + n % 64] from by
          simp [encodeNat, c1, c2, c3]]
        have s3 : utf8Step ⟨1, n / 4096 * 64 + n / 64 % 64, 128, 191⟩ (128 + n % 64) =
            (utf8Init, [Char.ofNat n]) := by
          rw [utf8Step_last _ _ _ _ (by omega),
            show (n / 4096 * 64 + n / 64 % 64) * 64 + (128 + n % 64) % 64 = n from by omega]
        by_cases d1 : n < 4096
        · rw [show 224 + n / 4096 = 224 from by omega]
          have s1 : utf8Step utf8Init 224 = (⟨2, n / 4096, 160, 191⟩, []) := by
            rw [utf8Step_clean, utf8Start_e0, show (0 : Nat) = n / 4096 from by omega]
          have s2 : utf8Step ⟨2, n / 4096, 160, 191⟩ (128 + n / 64 % 64) =
              (⟨1, n / 4096 * 64 + n / 64 % 64, 128, 191⟩, []) := by
            rw [utf8Step_cont2 _ _ _ _ (by omega),
              show (128 + n / 64 % 64) % 64 = n / 64 % 64 from by omega]
          simp [utf8Run, s1, s2, s3]
        · by_cases d2 : 53248 ≤ n ∧ n < 57344
          · rw [show 224 + n / 4096 = 237 from by omega]
            have s1 : utf8Step utf8Init 237 = (⟨2, n / 4096, 128, 159⟩, []) := by
              rw [utf8Step_clean, utf8Start_ed, show (13 : Nat) = n / 4096 from by omega]
            have s2 : utf8Step ⟨2, n / 4096, 128, 159⟩ (128 + n / 64 % 64) =
                (⟨1, n / 4096 * 64 + n / 64 % 64, 128, 191⟩, []) := by
              rw [utf8Step_cont2 _ _ _ _ (by omega),
                show (128 + n / 64 % 64) % 64 = n / 64 % 64 from by omega]
            simp [utf8Run, s1, s2, s3]
          · have s1 : utf8Step utf8Init (224 + n / 4096) =
                (⟨2, n / 4096, 128, 191⟩, []) := by
              rw [utf8Step_clean, utf8Start_mid3 _ (by omega) (by omega),
                show (224 + n / 4096) % 16 = n / 4096 from by omega]
            have s2 : utf8Step ⟨2, n / 4096, 128, 191⟩ (128 + n / 64 % 64) =
                (⟨1, n / 4096 * 64 + n / 64 % 64, 128, 191⟩, []) := by
              rw [utf8Step_cont2 _ _ _ _ (by omega),
                show (128 + n / 64 % 64) % 64 = n / 64 % 64 from by omega]
            simp [utf8Run, s1, s2, s3]
      · rw [show encodeNat n =
            [240 + n / 262144, 128 + n / 4096 % 64, 128 + n / 64 % 64, 128 + n % 64] from by
          simp [encodeNat, c1, c2, c3]]
        have s3 : utf8Step ⟨2, n / 262144 * 64 + n / 4096 % 64, 128, 191⟩
              (128 + n / 64 % 64) =
            (⟨1, (n / 262144 * 64 + n / 4096 % 64) * 64 + n / 64 % 64, 128, 191⟩, []) := by
          rw [utf8Step_cont2 _ _ _ _ (by omega),
            show (128 + n / 64 % 64) % 64 = n / 64 % 64 from by omega]
        have s4 : utf8Step
              ⟨1, (n / 262144 * 64 + n / 4096 % 64) * 64 + n / 64 % 64, 128, 191⟩
              (128 + n % 64) = (utf8Init, [Char.ofNat n]) := by
          rw [utf8Step_last _ _ _ _ (by omega),
            show ((n / 262144 * 64 + n / 4096 % 64) * 64 + n / 64 % 64) * 64
              + (128 + n % 64) % 64 = n from by omega]
        by_cases d1 : n < 262144
        · rw [show 240 + n / 262144 = 240 from by omega]
          have s1 : utf8Step utf8Init 240 = (⟨3, n / 262144, 144, 191⟩, []) := by
            rw [utf8Step_clean, utf8Start_f0, show (0 : Nat) = n / 262144 from by omega]
          have s2 : utf8Step ⟨3, n / 262144, 144, 191⟩ (128 + n / 4096 % 64) =
              (⟨2, n / 262144 * 64 + n / 4096 % 64, 128, 191⟩, []) := by
            rw [utf8Step_cont3 _ _ _ _ (by omega),
              show (128 + n / 4096 % 64) % 64 = n / 4096 % 64 from by omega]
          simp [utf8Run, s1, s2, s3, s4]
        · by_cases d2 : n < 1048576
          · have s1 : utf8Step utf8Init (240 + n / 262144) =
                (⟨3, n / 262144, 128, 191⟩, []) := by
              rw [utf8Step_clean, utf8Start_mid4 _ (by omega),
                show (240 + n / 262144) % 8 = n / 262144 from by omega]
            have s2 : utf8Step ⟨3, n / 262144, 128, 191⟩ (128 + n / 4096 % 64) =
                (⟨2, n / 262144 * 64 + n / 4096 % 64, 128, 191⟩, []) := by
              rw [utf8Step_cont3 _ _ _ _ (by omega),
                show (128 + n / 4096 % 64) % 64 = n / 4096 % 64 from by omega]
            simp [utf8Run, s1, s2, s3, s4]
          · rw [show 240 + n / 262144 = 244 from by omega]
            have s1 : utf8Step utf8Init 244 = (⟨3, n / 262144, 128, 143⟩, []) := by
              rw [utf8Step_clean, utf8Start_f4, show (4 : Nat) = n / 262144 from by omega]
            have s2 : utf8Step ⟨3, n / 262144, 128, 143⟩ (128 + n / 4096 % 64) =
                (⟨2, n / 262144 * 64 + n / 4096 % 64, 128, 191⟩, []) := by
              rw [utf8Step_cont3 _ _ _ _ (by omega),
                show (128 + n / 4096 % 64) % 64 = n / 4096 % 64 from by omega]
            simp [utf8Run, s1, s2, s3, s4]

theorem utf8Run_append (a b : List Nat) : ∀ st : Utf8State,
    utf8Run st (a ++ b) =
      ((utf8Run (utf8Run st a).1 b).1,
        (utf8Run st a).2 ++ (utf8Run (utf8Run st a).1 b).2) := by
  induction a with
  | nil => intro st; simp [utf8Run]
  | cons x xs ih => intro st; simp [utf8Run, ih]

theorem utf8Run_encode (s : Str) : utf8Run utf8Init (utf8Encode s) = (utf8Init, s) := by
  induction s with
  | nil => rfl
  | cons c cs ih =>
    show utf8Run utf8Init (flatL (List.map encodeChar (c :: cs))) = _
    simp only [List.map, flatL]
    rw [utf8Run_append]
    simp only [encodeChar]
    rw [utf8Run_encodeNat c.toNat c.valid]
    simp only [utf8Encode] at ih
    simp [ih, Char.ofNat_toNat]

theorem splitLinesL_ne_nil (t : Str) : splitLinesL t ≠ [] := by
  cases t with
  | nil => simp [splitLinesL]
  | cons c rest =>
    simp only [splitLinesL]
    split
    · simp
    · split <;> simp

theorem intercalateL_cons_ne (sep x : Str) (ts : List Str) (h : ts ≠ []) :
    intercalateL sep (x :: ts) = x ++ sep ++ intercalateL sep ts := by
  cases ts with
  | nil => exact absurd rfl h
  | cons y ys => rfl

theorem intercalate_splitLinesL (t : Str) : intercalateL ['\n'] (splitLinesL t) = t := by
  induction t with
  | nil => rfl
  | cons c rest ih =>
    by_cases hc : c = '\n'
    · subst hc
      simp only [splitLinesL]
      rw [if_pos trivial, intercalateL_cons_ne _ _ _ (splitLinesL_ne_nil rest)]
      simp [ih]
    · simp only [splitLinesL, if_neg hc]
      match hv : splitLinesL rest with
      | [] => exact absurd hv (splitLinesL_ne_nil rest)
      | [l] =>
        rw [hv] at ih
        simp only [intercalateL] at ih ⊢
        simp [ih]
      | l :: y :: ys =>
        rw [hv] at ih
        rw [intercalateL_cons_ne _ _ _ (by simp)] at ih
        rw [intercalateL_cons_ne _ _ _ (by simp)]
        simp only [List.cons_append]
        rw [ih]

theorem intercalateL_dropLast_append (sep : Str) (pieces ys : List Str) (z : Str)
    (hp : pieces ≠ []) (hys : ys ≠ [])
    (hlast : intercalateL sep ys = pieces.getLastD [] ++ z) :
    intercalateL sep (pieces.dropLast ++ ys) = intercalateL sep pieces ++ z := by
  induction pieces with
  | nil => exact absurd rfl hp
  | cons x rest ih =>
    cases rest with
    | nil =>
      simp only [List.dropLast_single, List.nil_append]
      simpa [intercalateL, List.getLastD] using hlast
    | cons y rest2 =>
      have h1 : (x :: y :: rest2).dropLast = x :: (y :: rest2).dropLast := by simp
      rw [h1, List.cons_append,
        intercalateL_cons_ne sep x _ (by
          intro hemp
          exact hys (List.append_eq_nil.mp hemp).2),
        ih (by simp) (by simpa [List.getLastD_cons] using hlast),
        intercalateL_cons_ne sep x (y :: rest2) (by simp)]
      simp [List.append_assoc]

theorem linesLoop_ne_nil : ∀ (bufs : List (List Nat)) (d : Utf8State) (buffer : Str),
    linesLoop d buffer bufs ≠ [] := by
  intro bufs
  induction bufs with
  | nil => intro d buffer; simp [linesLoop]
  | cons v bs ih =>
    intro d buffer
    simp only [linesLoop]
    intro hemp
    exact ih _ _ (List.append_eq_nil.mp hemp).2

theorem linesLoop_join (bufs : List (List Nat)) :
    ∀ (d : Utf8State) (buffer : Str),
      intercalateL ['\n'] (linesLoop d buffer bufs) = buffer ++ (utf8Run d (flatL bufs)).2 := by
  induction bufs with
  | nil => intro d buffer; simp [linesLoop, utf8Run, intercalateL, flatL]
  | cons v bs ih =>
    intro d buffer
    simp only [linesLoop]
    rw [intercalateL_dropLast_append ['\n'] (splitLinesL (buffer ++ (utf8Run d v).2))
        (linesLoop (utf8Run d v).1
          ((splitLinesL (buffer ++ (utf8Run d v).2)).getLastD []) bs)
        (utf8Run (utf8Run d v).1 (flatL bs)).2
        (splitLinesL_ne_nil _) (linesLoop_ne_nil _ _ _) (ih _ _),
      intercalate_splitLinesL]
    simp only [flatL]
    rw [utf8Run_append]
    simp [List.append_assoc]

/-- Claim C3: for every byte-buffer sequence whose concatenation is the
UTF-8 encoding of a text `s` — any chunk split, including splits inside a
multi-byte character — the decoder's emitted lines (the split pieces plus
the flushed final buffer), rejoined with the `'\n'` terminators reinserted,
are exactly `s`: no byte is lost and none is duplicated. -/
theorem c3_decoder_lossless (s : Str) (bufs : List (List Nat))
    (h : flatL bufs = utf8Encode s) :
    intercalateL ['\n'] (decodedLines bufs) = s := by
  have hj := linesLoop_join bufs utf8Init []
  rw [h, utf8Run_encode] at hj
  simpa [decodedLines] using hj

theorem c3_witness :
    flatL [[195], [169, 10, 111], [107]] = utf8Encode (toL "é\nok") ∧
      intercalateL ['\n'] (decodedLines [[195], [169, 10, 111], [107]]) = toL "é\nok" :=
  ⟨by decide, c3_decoder_lossless (toL "é\nok") [[195], [169, 10, 111], [107]] (by decide)⟩

theorem get?_append_offset (l1 l2 : List Message) (n : Nat) :
    (l1 ++ l2).get? (l1.length + n) = l2.get? n := by
  induction l1 with
  | nil => simp
  | cons x xs ih => simpa [List.length_cons, Nat.succ_add] using ih

theorem mapAtIdx_get? (f : Message → Message) (t : Int) :
    ∀ (l : List Message) (i : Int) (n : Nat),
      (mapAtIdx f t i l).get? n = (l.get? n).map (fun m => if i + n = t then f m else m) := by
  intro l
  induction l with
  | nil => intro i n; simp [mapAtIdx]
  | cons x xs ih =>
    intro i n
    cases n with
    | zero => simp [mapAtIdx]
    | succ k =>
      simp only [mapAtIdx, List.get?_cons_succ, ih xs.length]
      rw [ih (i + 1) k]
      have : i + 1 + (k : Int) = i + (k + 1 : Nat) := by push_cast; omega
      rw [this]

theorem startRequest_idx (prev : List Message) (q : Str) :
    (startRequest prev q).idx = ((prev.length + 1 : Nat) : Int) := by
  simp [startRequest]
  omega

theorem startRequest_get? (prev : List Message) (q : Str) :
    (startRequest prev q).messages.get? (prev.length + 1) =
      some ⟨Role.assistant, STREAMING_PLACEHOLDER, []⟩ := by
  simpa [startRequest] using
    get?_append_offset prev [⟨Role.user, q, []⟩, ⟨Role.assistant, STREAMING_PLACEHOLDER, []⟩] 1

theorem patch_get?_at (f : Message → Message) (s : LoopState) (k : Nat) (m : Message)
    (hidx : s.idx = ((k : Nat) : Int)) (hm : s.messages.get? k = some m) :
    (patchAssistantMessage f s).messages.get? k = some (f m) := by
  have hpos : ¬s.idx < 0 := by rw [hidx]; omega
  simp only [patchAssistantMessage, if_neg hpos]
  rw [mapAtIdx_get?, hm, hidx]
  simp

theorem patch_of_neg (f : Message → Message) (s : LoopState) (h : s.idx < 0) :
    patchAssistantMessage f s = s := by
  simp [patchAssistantMessage, h]

theorem processEvent_msgs_of_neg (e : Option ParsedJson) (s : LoopState) (h : s.idx < 0) :
    (processEvent e s).messages = s.messages := by
  cases e with
  | none => rfl
  | some v =>
    cases v with
    | jnull => rfl
    | obj t d r m =>
      cases t with
      | none => rfl
      | some tg =>
        simp only [processEvent]
        split_ifs <;>
          simp [appendAssistantDelta, applyAssistantReferences, overwriteAssistant,
            patchAssistantMessage, h]

/-- Claim C2 (as stated) is false: with a non-ok response whose body is
`"backend exploded"`, the assistant message does not show that body — the
catch handler writes the fixed failure text instead. -/
theorem c2_counterexample :
    (sendMessage (fun _ => none) [] (-1) false (toL "q")
        (FetchOutcome.httpError (toL "backend exploded"))).messages.get? 1 ≠
      some ⟨Role.assistant, toL "backend exploded", []⟩ := by
  decide

/-- Claim C2, amended: a non-ok initial response resolves as a
transport-level failure (the catch handler runs, the index is invalidated);
a non-empty body becomes the thrown error's message
(`errorText || 'Chat failed.'`), but the assistant message's content is
always the fixed `'Search failed. Check the FastAPI logs.'` text — the body
is not surfaced to the user. -/
theorem c2_amended (decode : Str → Option ParsedJson) (prev : List Message) (idx0 : Int)
    (input body : Str) (h : jsTrim input ≠ []) :
    (sendMessage decode prev idx0 false input (FetchOutcome.httpError body)).caughtFailure =
        true ∧
      (sendMessage decode prev idx0 false input (FetchOutcome.httpError body)).idx = -1 ∧
      (sendMessage decode prev idx0 false input (FetchOutcome.httpError body)).messages.get?
          (prev.length + 1) = some ⟨Role.assistant, catchText, []⟩ ∧
      (body ≠ [] → httpErrorThrownText body = body) := by
  have e : sendMessage decode prev idx0 false input (FetchOutcome.httpError body) =
      ⟨(overwriteAssistant catchText (startRequest prev (jsTrim input))).messages, -1, false,
        true⟩ := by
    simp only [sendMessage]
    rw [if_neg (by simp), if_neg h]
  refine ⟨by rw [e], by rw [e], ?_, fun hb => by simp [httpErrorThrownText, hb]⟩
  rw [e]
  show (overwriteAssistant catchText (startRequest prev (jsTrim input))).messages.get?
      (prev.length + 1) = _
  rw [overwriteAssistant,
    patch_get?_at _ _ (prev.length + 1) ⟨Role.assistant, STREAMING_PLACEHOLDER, []⟩
      (startRequest_idx prev (jsTrim input)) (startRequest_get? prev (jsTrim input))]

theorem c2_witness :
    (sendMessage (fun _ => none) [] (-1) false (toL "hi")
          (FetchOutcome.httpError (toL "boom"))).caughtFailure = true ∧
      (sendMessage (fun _ => none) [] (-1) false (toL "hi")
          (FetchOutcome.httpError (toL "boom"))).idx = -1 ∧
      (sendMessage (fun _ => none) [] (-1) false (toL "hi")
          (FetchOutcome.httpError (toL "boom"))).messages.get? 1 =
        some ⟨Role.assistant, catchText, []⟩ ∧
      (toL "boom" ≠ [] → httpErrorThrownText (toL "boom") = toL "boom") :=
  c2_amended (fun _ => none) [] (-1) (toL "hi") (toL "boom") (by decide)

/-- Claim C7 (as stated) is false: the line `null` is valid JSON with no
`type` field, yet dispatching it throws (`event.type` on `null`), the
exception aborts the read loop, and the catch handler mutates the active
message to the fixed failure text. -/
theorem c7_counterexample :
    (sendMessage nullDecode [] (-1) false (toL "q")
          (FetchOutcome.stream [[110, 117, 108, 108, 10]])).messages.get? 1 =
        some ⟨Role.assistant, catchText, []⟩ ∧
      catchText ≠ STREAMING_PLACEHOLDER := by
  constructor
  · decide
  · decide

/-- Claim C7, amended: a line that is not valid JSON, or is valid JSON
other than `null` whose `type` field is missing (or not one of the three
recognized tags), leaves the whole loop state — in particular every
message — unchanged and throws nothing; a line parsing to JSON `null` is
the exception, as `event.type` throws on it. -/
theorem c7_amended (line : Str) (decode : Str → Option ParsedJson) (s : LoopState)
    (h : decode line = none ∨
      (∃ d r m, decode line = some (ParsedJson.obj none d r m)) ∨
      (∃ t d r m, decode line = some (ParsedJson.obj (some t) d r m) ∧
        t ≠ chunkTag ∧ t ≠ refsTag ∧ t ≠ errTag)) :
    processEventLine line decode s = s := by
  by_cases hl : line = []
  · simp [processEventLine, hl]
  · simp only [processEventLine, if_neg hl, processLineEvent]
    by_cases ha : s.shouldAbort = true
    · simp [ha]
    · rw [if_neg ha]
      rcases h with h | ⟨d, r, m, h⟩ | ⟨t, d, r, m, h, h1, h2, h3⟩
      · rw [h]
        rfl
      · rw [h]
        rfl
      · rw [h]
        simp only [processEvent]
        rw [if_neg h1, if_neg h2, if_neg h3]

theorem c7_witness :
    processEventLine (toL "oops") (fun _ => none) ⟨[], -1, false, false, false, false⟩ =
        ⟨[], -1, false, false, false, false⟩ ∧
      processEventLine (toL "{}")
          (fun l => if l = toL "{}" then some (ParsedJson.obj none none none none) else none)
          ⟨[], 0, false, false, false, false⟩ =
        ⟨[], 0, false, false, false, false⟩ ∧
      processEventLine (toL "x")
          (fun l => if l = toL "x" then
              some (ParsedJson.obj (some (toL "ping")) none none none) else none)
          ⟨[], 0, false, false, false, false⟩ =
        ⟨[], 0, false, false, false, false⟩ :=
  ⟨c7_amended (toL "oops") (fun _ => none) ⟨[], -1, false, false, false, false⟩
      (Or.inl (by decide)),
    c7_amended (toL "{}")
      (fun l => if l = toL "{}" then some (ParsedJson.obj none none none none) else none)
      ⟨[], 0, false, false, false, false⟩
      (Or.inr (Or.inl ⟨none, none, none, by decide⟩)),
    c7_amended (toL "x")
      (fun l => if l = toL "x" then some (ParsedJson.obj (some (toL "ping")) none none none)
        else none)
      ⟨[], 0, false, false, false, false⟩
      (Or.inr (Or.inr ⟨toL "ping", none, none, none, by decide, by decide, by decide,
        by decide⟩))⟩

/-- Claim C9: (1) every completed request cycle resets the active-message
back-reference to `-1` in its `finally` block, whatever the outcome; (2) a
submission attempted while a request is in flight changes nothing; (3) a
mutation applied while no target is set (`idx < 0`) is a complete no-op;
(4) dispatching any further event while no target is set leaves every
message unchanged — so late events cannot mutate any message after a
request finishes, including after a new request starts (which is only
possible once the previous cycle ended and re-pointed the index). -/
theorem c9_index_invalidation :
    (∀ (decode : Str → Option ParsedJson) (prev : List Message) (idx0 : Int) (input : Str)
        (outcome : FetchOutcome), jsTrim input ≠ [] →
        (sendMessage decode prev idx0 false input outcome).idx = -1) ∧
    (∀ (decode : Str → Option ParsedJson) (prev : List Message) (idx0 : Int) (input : Str)
        (outcome : FetchOutcome),
        sendMessage decode prev idx0 true input outcome = ⟨prev, idx0, true, false⟩) ∧
    (∀ (f : Message → Message) (s : LoopState), s.idx < 0 →
        patchAssistantMessage f s = s) ∧
    (∀ (e : Option ParsedJson) (s : LoopState), s.idx < 0 →
        (processLineEvent e s).messages = s.messages) := by
  refine ⟨?_, ?_, ?_, ?_⟩
  · intro decode prev idx0 input outcome h
    simp only [sendMessage]
    rw [if_neg (by simp), if_neg h]
    cases outcome <;> rfl
  · intro decode prev idx0 input outcome
    simp [sendMessage]
  · intro f s h
    exact patch_of_neg f s h
  · intro e s h
    simp only [processLineEvent]
    by_cases ha : s.shouldAbort = true
    · rw [if_pos ha]
    · rw [if_neg ha]
      exact processEvent_msgs_of_neg e s h

theorem c9_witness :
    (sendMessage (fun _ => none) [] 5 false (toL "hi") FetchOutcome.fetchFailure).idx = -1 ∧
      sendMessage (fun _ => none) [] 5 true (toL "hi") FetchOutcome.fetchFailure =
        ⟨[], 5, true, false⟩ ∧
      patchAssistantMessage (fun m => m) ⟨[], -1, false, false, false, false⟩ =
        ⟨[], -1, false, false, false, false⟩ ∧
      (processLineEvent (chunkEvent (some (toL "late")))
          ⟨[⟨Role.assistant, [], []⟩], -1, false, false, false, false⟩).messages =
        [⟨Role.assistant, [], []⟩] :=
  ⟨c9_index_invalidation.1 (fun _ => none) [] 5 (toL "hi") FetchOutcome.fetchFailure
      (by decide),
    c9_index_invalidation.2.1 (fun _ => none) [] 5 (toL "hi") FetchOutcome.fetchFailure,
    c9_index_invalidation.2.2.1 (fun m => m) ⟨[], -1, false, false, false, false⟩ (by decide),
    c9_index_invalidation.2.2.2 (chunkEvent (some (toL "late")))
      ⟨[⟨Role.assistant, [], []⟩], -1, false, false, false, false⟩ (by decide)⟩

theorem patch_flags (f : Message → Message) (s : LoopState) :
    (patchAssistantMessage f s).shouldAbort = s.shouldAbort ∧
    (patchAssistantMessage f s).crashed = s.crashed ∧
    (patchAssistantMessage f s).receivedError = s.receivedError ∧
    (patchAssistantMessage f s).receivedChunk = s.receivedChunk ∧
    (patchAssistantMessage f s).idx = s.idx := by
  simp only [patchAssistantMessage]
  split <;> exact ⟨rfl, rfl, rfl, rfl, rfl⟩

theorem patch_shape (f : Message → Message) (s : LoopState) (k : Nat)
    (hrole : ∀ msg, (f msg).role = msg.role)
    (hm : ∃ c r, s.messages.get? k = some ⟨Role.assistant, c, r⟩) :
    ∃ c r, (patchAssistantMessage f s).messages.get? k = some ⟨Role.assistant, c, r⟩ := by
  obtain ⟨c, r, hmm⟩ := hm
  simp only [patchAssistantMessage]
  split
  · exact ⟨c, r, hmm⟩
  · rw [mapAtIdx_get?, hmm]
    simp only [Option.map]
    split
    · have h2 := hrole ⟨Role.assistant, c, r⟩
      refine ⟨(f ⟨Role.assistant, c, r⟩).content, (f ⟨Role.assistant, c, r⟩).references, ?_⟩
      cases hfm : f ⟨Role.assistant, c, r⟩ with
      | mk ro co re =>
        rw [hfm] at h2
        simp only [hfm]
        simp at h2 ⊢
        exact h2
    · exact ⟨c, r, rfl⟩

theorem processLineEvent_chunkRefs (e : Option ParsedJson) (s : LoopState) (k : Nat)
    (he : isChunkOrRefs e = true)
    (hm : ∃ c r, s.messages.get? k = some ⟨Role.assistant, c, r⟩) :
    (processLineEvent e s).shouldAbort = s.shouldAbort ∧
    (processLineEvent e s).crashed = s.crashed ∧
    (processLineEvent e s).receivedError = s.receivedError ∧
    (processLineEvent e s).idx = s.idx ∧
    (∃ c r, (processLineEvent e s).messages.get? k = some ⟨Role.assistant, c, r⟩) := by
  by_cases hab : s.shouldAbort = true
  · simp only [processLineEvent, if_pos hab]
    exact ⟨trivial, trivial, trivial, trivial, hm⟩
  · simp only [processLineEvent, if_neg hab]
    match e, he with
    | some (ParsedJson.obj (some t) d r mm), he =>
      have ht : t = chunkTag ∨ t = refsTag := by
        simpa [isChunkOrRefs] using he
      rcases ht with ht | ht
      · subst ht
        simp only [processEvent, if_pos rfl, appendAssistantDelta]
        have hf := patch_flags
          (fun msg =>
            { msg with
              content :=
                (if msg.content = STREAMING_PLACEHOLDER then [] else msg.content) ++
                  d.getD [] })
          { s with receivedChunk := true }
        refine ⟨hf.1, hf.2.1, hf.2.2.1, hf.2.2.2.2, ?_⟩
        exact patch_shape _ _ k (fun msg => rfl) hm
      · subst ht
        have hne : ¬(refsTag = chunkTag) := by decide
        simp only [processEvent, if_neg hne, if_pos rfl, applyAssistantReferences]
        have hf := patch_flags (fun msg => { msg with references := r.getD [] }) s
        exact ⟨hf.1, hf.2.1, hf.2.2.1, hf.2.2.2.2, patch_shape _ _ k (fun msg => rfl) hm⟩

theorem runEvents_abort : ∀ (post : List (Option ParsedJson)) (s : LoopState),
    s.shouldAbort = true → runEvents post s = s := by
  intro post
  induction post with
  | nil => intro s h; rfl
  | cons e es ih =>
    intro s h
    simp only [runEvents, processLineEvent, if_pos h]
    by_cases hc : s.crashed = true
    · rw [if_pos hc]
    · rw [if_neg hc, ih s h]

theorem runEvents_chunkRefs (k : Nat) :
    ∀ (pre : List (Option ParsedJson)) (s : LoopState),
      (∀ e ∈ pre, isChunkOrRefs e = true) →
      s.shouldAbort = false → s.crashed = false → s.receivedError = false →
      s.idx = ((k : Nat) : Int) →
      (∃ c r, s.messages.get? k = some ⟨Role.assistant, c, r⟩) →
      (runEvents pre s).shouldAbort = false ∧ (runEvents pre s).crashed = false ∧
      (runEvents pre s).receivedError = false ∧
      (runEvents pre s).idx = ((k : Nat) : Int) ∧
      (∃ c r, (runEvents pre s).messages.get? k = some ⟨Role.assistant, c, r⟩) ∧
      ∀ l2, runEvents (pre ++ l2) s = runEvents l2 (runEvents pre s) := by
  intro pre
  induction pre with
  | nil =>
    intro s h ha hc he hi hm
    exact ⟨ha, hc, he, hi, hm, fun l2 => by simp [runEvents]⟩
  | cons e es ih =>
    intro s h ha hc he hi hm
    have hstep := processLineEvent_chunkRefs e s k (h e (by simp)) hm
    have hs1a : (processLineEvent e s).shouldAbort = false := by rw [hstep.1, ha]
    have hs1c : (processLineEvent e s).crashed = false := by rw [hstep.2.1, hc]
    have hs1e : (processLineEvent e s).receivedError = false := by rw [hstep.2.2.1, he]
    have hs1i : (processLineEvent e s).idx = ((k : Nat) : Int) := by rw [hstep.2.2.2.1, hi]
    have hrun : runEvents (e :: es) s = runEvents es (processLineEvent e s) := by
      simp only [runEvents]
      rw [if_neg (by rw [hs1c]; simp)]
    have hrec := ih (processLineEvent e s) (fun e' he' => h e' (by simp [he'])) hs1a hs1c
      hs1e hs1i hstep.2.2.2.2
    rw [hrun]
    refine ⟨hrec.1, hrec.2.1, hrec.2.2.1, hrec.2.2.2.1, hrec.2.2.2.2.1, fun l2 => ?_⟩
    have : (e :: es) ++ l2 = e :: (es ++ l2) := rfl
    rw [this]
    have hrun2 : runEvents (e :: (es ++ l2)) s = runEvents (es ++ l2) (processLineEvent e s) := by
      simp only [runEvents]
      rw [if_neg (by rw [hs1c]; simp)]
    rw [hrun2, hrec.2.2.2.2.2 l2]

/-- Claim C4 (as stated) is false for the empty error message: on
`{"type":"error","message":""}` the code stores the fallback
`'Chat failed. Please retry.'`, not the event's message `""`. -/
theorem c4_counterexample :
    (runEvents [errEvent (some [])] (startRequest [] (toL "hi"))).messages.get? 1 ≠
      some ⟨Role.assistant, [], []⟩ := by
  decide

theorem runEvents_single (e : Option ParsedJson) (s : LoopState) :
    runEvents [e] s = processLineEvent e s := by
  simp only [runEvents]
  split <;> rfl

/-- Claim C4, amended for nonempty `m` (`event.message || '...'` replaces a
falsy message by the fallback): after any prefix of chunk/references events
followed by an error event with message `m`, the active message's content
is exactly `m`, its references are empty, the message is Failed
(`receivedError` is set and `shouldAbort` stops the loop), and processing
any further events leaves the state — in particular every message —
unchanged. -/
theorem c4_error_terminal (prev : List Message) (q : Str)
    (pre post : List (Option ParsedJson)) (m : Str)
    (hpre : ∀ e ∈ pre, isChunkOrRefs e = true) (hm : m ≠ []) :
    (runEvents (pre ++ [errEvent (some m)]) (startRequest prev q)).messages.get?
        (prev.length + 1) = some ⟨Role.assistant, m, []⟩ ∧
      (runEvents (pre ++ [errEvent (some m)]) (startRequest prev q)).receivedError = true ∧
      (runEvents (pre ++ [errEvent (some m)]) (startRequest prev q)).shouldAbort = true ∧
      runEvents (pre ++ [errEvent (some m)] ++ post) (startRequest prev q) =
        runEvents (pre ++ [errEvent (some m)]) (startRequest prev q) := by
  have h0 := runEvents_chunkRefs (prev.length + 1) pre (startRequest prev q) hpre rfl rfl rfl
    (startRequest_idx prev q) ⟨STREAMING_PLACEHOLDER, [], startRequest_get? prev q⟩
  obtain ⟨ha, hc, he, hi, ⟨c, r, hmsg⟩, hcomp⟩ := h0
  set s1 := runEvents pre (startRequest prev q) with hs1
  have hub : ¬s1.shouldAbort = true := by simp [ha]
  have herr : processLineEvent (errEvent (some m)) s1 =
      { overwriteAssistant m { s1 with receivedError := true } with shouldAbort := true } := by
    have t1 : (errTag = chunkTag) = False := eq_false (by decide)
    have t2 : (errTag = refsTag) = False := eq_false (by decide)
    simp only [processLineEvent, if_neg hub, errEvent, processEvent, t1, t2, if_false,
      eq_self_iff_true, if_true, Option.getD]
    rw [if_neg hm]
  have hone : runEvents (pre ++ [errEvent (some m)]) (startRequest prev q) =
      { overwriteAssistant m { s1 with receivedError := true } with shouldAbort := true } := by
    rw [hcomp [errEvent (some m)], runEvents_single, herr]
  have hmsg2 : ({ s1 with receivedError := true } : LoopState).messages.get?
      (prev.length + 1) = some ⟨Role.assistant, c, r⟩ := hmsg
  have hidx2 : ({ s1 with receivedError := true } : LoopState).idx =
      ((prev.length + 1 : Nat) : Int) := hi
  refine ⟨?_, ?_, ?_, ?_⟩
  · rw [hone]
    show (overwriteAssistant m { s1 with receivedError := true }).messages.get? _ = _
    rw [overwriteAssistant, patch_get?_at _ _ (prev.length + 1) ⟨Role.assistant, c, r⟩ hidx2
      hmsg2]
  · rw [hone]
    show (overwriteAssistant m { s1 with receivedError := true }).receivedError = true
    rw [overwriteAssistant, (patch_flags _ _).2.2.1]
  · rw [hone]
  · rw [show pre ++ [errEvent (some m)] ++ post = pre ++ ([errEvent (some m)] ++ post) from by
      simp, hcomp ([errEvent (some m)] ++ post), hone]
    show runEvents (errEvent (some m) :: post) s1 = _
    simp only [runEvents]
    rw [herr]
    have hcr : (overwriteAssistant m { s1 with receivedError := true }).crashed = false := by
      rw [overwriteAssistant, (patch_flags _ _).2.1]
      exact hc
    rw [if_neg (by simp [hcr]), runEvents_abort post _ rfl]

theorem c4_witness :
    (runEvents ([chunkEvent (some (toL "partial"))] ++ [errEvent (some (toL "backend down"))])
          (startRequest [] (toL "hi"))).messages.get? 1 =
        some ⟨Role.assistant, toL "backend down", []⟩ ∧
      (runEvents ([chunkEvent (some (toL "partial"))] ++
            [errEvent (some (toL "backend down"))])
          (startRequest [] (toL "hi"))).receivedError = true ∧
      (runEvents ([chunkEvent (some (toL "partial"))] ++
            [errEvent (some (toL "backend down"))])
          (startRequest [] (toL "hi"))).shouldAbort = true ∧
      runEvents ([chunkEvent (some (toL "partial"))] ++ [errEvent (some (toL "backend down"))]
            ++ [chunkEvent (some (toL "late")), refsEvent [toL "[1] x — https://y"]])
          (startRequest [] (toL "hi")) =
        runEvents ([chunkEvent (some (toL "partial"))] ++
            [errEvent (some (toL "backend down"))])
          (startRequest [] (toL "hi")) :=
  c4_error_terminal [] (toL "hi") [chunkEvent (some (toL "partial"))]
    [chunkEvent (some (toL "late")), refsEvent [toL "[1] x — https://y"]]
    (toL "backend down") (by decide) (by decide)

theorem processLineEvent_c8ok (e : Option ParsedJson) (s : LoopState) (k : Nat)
    (he : c8EventOk e = true)
    (hm : ∃ c r, s.messages.get? k = some ⟨Role.assistant, c, r⟩) :
    (processLineEvent e s).shouldAbort = s.shouldAbort ∧
    (processLineEvent e s).crashed = s.crashed ∧
    (processLineEvent e s).receivedError = s.receivedError ∧
    (processLineEvent e s).receivedChunk = s.receivedChunk ∧
    (processLineEvent e s).idx = s.idx ∧
    (∃ c r, (processLineEvent e s).messages.get? k = some ⟨Role.assistant, c, r⟩) := by
  by_cases hab : s.shouldAbort = true
  · simp only [processLineEvent, if_pos hab]
    exact ⟨trivial, trivial, trivial, trivial, trivial, hm⟩
  · simp only [processLineEvent, if_neg hab]
    match e, he with
    | none, he => exact ⟨rfl, rfl, rfl, rfl, rfl, hm⟩
    | some (ParsedJson.obj none d r mm), he => exact ⟨rfl, rfl, rfl, rfl, rfl, hm⟩
    | some (ParsedJson.obj (some t) d r mm), he =>
      have ht : ¬(t = chunkTag) ∧ ¬(t = errTag) := by
        simpa [c8EventOk] using he
      by_cases hr : t = refsTag
      · subst hr
        simp only [processEvent, if_neg ht.1, if_pos rfl, applyAssistantReferences]
        have hf := patch_flags (fun msg => { msg with references := r.getD [] }) s
        exact ⟨hf.1, hf.2.1, hf.2.2.1, hf.2.2.2.1, hf.2.2.2.2,
          patch_shape _ _ k (fun msg => rfl) hm⟩
      · simp only [processEvent, if_neg ht.1, if_neg hr, if_neg ht.2]
        exact ⟨trivial, trivial, trivial, trivial, trivial, hm⟩

theorem runEvents_c8 (k : Nat) :
    ∀ (events : List (Option ParsedJson)) (s : LoopState),
      (∀ e ∈ events, c8EventOk e = true) →
      s.shouldAbort = false → s.crashed = false → s.receivedError = false →
      s.receivedChunk = false → s.idx = ((k : Nat) : Int) →
      (∃ c r, s.messages.get? k = some ⟨Role.assistant, c, r⟩) →
      (runEvents events s).shouldAbort = false ∧ (runEvents events s).crashed = false ∧
      (runEvents events s).receivedError = false ∧
      (runEvents events s).receivedChunk = false ∧
      (runEvents events s).idx = ((k : Nat) : Int) ∧
      (∃ c r, (runEvents events s).messages.get? k = some ⟨Role.assistant, c, r⟩) := by
  intro events
  induction events with
  | nil =>
    intro s h ha hc he hk hi hm
    exact ⟨ha, hc, he, hk, hi, hm⟩
  | cons e es ih =>
    intro s h ha hc he hk hi hm
    have hstep := processLineEvent_c8ok e s k (h e (by simp)) hm
    have hrun : runEvents (e :: es) s = runEvents es (processLineEvent e s) := by
      simp only [runEvents]
      rw [if_neg (by rw [hstep.2.1, hc]; simp)]
    rw [hrun]
    exact ih (processLineEvent e s) (fun e' he' => h e' (by simp [he']))
      (by rw [hstep.1, ha]) (by rw [hstep.2.1, hc]) (by rw [hstep.2.2.1, he])
      (by rw [hstep.2.2.2.1, hk]) (by rw [hstep.2.2.2.2.1, hi]) hstep.2.2.2.2.2

/-- Claim C8: if a stream runs to completion with zero `answer_chunk`
events and no error (references, unknown-tag and unparseable lines are
allowed), the stream-end step overwrites the active message with the fixed
`"I couldn't find anything for that query."` text (references cleared) and
the message is Finalized (no error); and whenever at least one
`answer_chunk` was received, the stream-end step changes nothing — the
content stays exactly as accumulated. -/
theorem c8_empty_stream_fallback :
    (∀ (prev : List Message) (q : Str) (events : List (Option ParsedJson)),
      (∀ e ∈ events, c8EventOk e = true) →
      (applyStreamEnd (runEvents events (startRequest prev q))).messages.get?
          (prev.length + 1) = some ⟨Role.assistant, noResultsText, []⟩ ∧
        (runEvents events (startRequest prev q)).receivedError = false) ∧
    (∀ s : LoopState, s.receivedChunk = true → applyStreamEnd s = s) := by
  constructor
  · intro prev q events h
    have h0 := runEvents_c8 (prev.length + 1) events (startRequest prev q) h rfl rfl rfl rfl
      (startRequest_idx prev q) ⟨STREAMING_PLACEHOLDER, [], startRequest_get? prev q⟩
    obtain ⟨ha, hc, he, hk, hi, ⟨c, r, hmsg⟩⟩ := h0
    refine ⟨?_, he⟩
    simp only [applyStreamEnd, if_pos (And.intro hk he)]
    rw [overwriteAssistant, patch_get?_at _ _ (prev.length + 1) ⟨Role.assistant, c, r⟩ hi hmsg]
  · intro s h
    simp [applyStreamEnd, h]

theorem c8_witness :
    (applyStreamEnd (runEvents [refsEvent [toL "[1] a — https://b"], none,
          some (ParsedJson.obj (some (toL "ping")) none none none)]
        (startRequest [] (toL "query")))).messages.get? 1 =
        some ⟨Role.assistant, noResultsText, []⟩ ∧
      (runEvents [refsEvent [toL "[1] a — https://b"], none,
          some (ParsedJson.obj (some (toL "ping")) none none none)]
        (startRequest [] (toL "query"))).receivedError = false ∧
      applyStreamEnd ⟨[⟨Role.assistant, toL "acc", []⟩], -1, true, false, false, false⟩ =
        ⟨[⟨Role.assistant, toL "acc", []⟩], -1, true, false, false, false⟩ := by
  refine ⟨?_, ?_, ?_⟩
  · exact (c8_empty_stream_fallback.1 [] (toL "query") _ (by decide)).1
  · exact (c8_empty_stream_fallback.1 [] (toL "query") _ (by decide)).2
  · exact c8_empty_stream_fallback.2 _ rfl

theorem dashMarker_eq : dashMarker = '-' :: '-' :: '-' :: [] := by decide

theorem headMarker_eq : headMarker = '#' :: '#' :: ' ' :: [] := by decide

theorem bulletMarker_eq : bulletMarker = '-' :: ' ' :: [] := by decide

theorem refsMarker_eq : refsMarker = '#' :: '#' :: ' ' :: toL "references" := by decide

theorem isPrefixL_cons (a b : Char) (as bs : Str) :
    isPrefixL (a :: as) (b :: bs) = if a = b then isPrefixL as bs else false := rfl

theorem refs_not_prefix_bullet (i : Str) :
    isPrefixL refsMarker (lowerL ('-' :: ' ' :: i)) = false := by
  rw [refsMarker_eq]
  simp only [lowerL, List.map]
  rw [show Char.toLower '-' = '-' from by decide, isPrefixL_cons, if_neg (by decide)]

theorem head_not_prefix_bullet (i : Str) :
    isPrefixL headMarker ('-' :: ' ' :: i) = false := by
  rw [headMarker_eq, isPrefixL_cons, if_neg (by decide)]

theorem bullet_prefix_bullet (i : Str) :
    isPrefixL bulletMarker ('-' :: ' ' :: i) = true := by
  rw [bulletMarker_eq]
  simp [isPrefixL]

theorem refs_prefix_head (h : Str) :
    isPrefixL refsMarker (lowerL ('#' :: '#' :: ' ' :: h)) =
      isPrefixL (toL "references") (lowerL h) := by
  rw [refsMarker_eq]
  simp only [lowerL, List.map]
  rw [show Char.toLower '#' = '#' from by decide, show Char.toLower ' ' = ' ' from by decide]
  simp [isPrefixL]

theorem head_prefix_head (h : Str) :
    isPrefixL headMarker ('#' :: '#' :: ' ' :: h) = true := by
  rw [headMarker_eq]
  simp [isPrefixL]

theorem parseLoop_para (t : Str) (ht : stableText t) (rest : List Str)
    (cur : Option DSection) :
    parseLoop (t :: rest) cur =
      parseLoop rest (some ⟨(cur.getD ⟨[], []⟩).heading,
        (cur.getD ⟨[], []⟩).body ++ [Block.paragraph t]⟩) := by
  obtain ⟨h1, h2, h3, h4, h5, h6, h7, h8⟩ := ht
  simp only [parseLoop, h2]
  rw [if_neg (not_or.mpr ⟨h1, h5⟩), if_neg (by rw [h8]; simp), if_neg (by rw [h7]; simp),
    if_neg (by rw [h6]; simp), h3]

theorem parseLoop_item (i : Str) (hi : stableItem i) (rest : List Str)
    (cur : Option DSection) :
    parseLoop (('-' :: ' ' :: i) :: rest) cur =
      parseLoop rest (some ⟨(cur.getD ⟨[], []⟩).heading,
        addBullet (cur.getD ⟨[], []⟩).body i⟩) := by
  obtain ⟨h1, h2, h3, h4, h5⟩ := hi
  simp only [parseLoop, h5]
  rw [if_neg (not_or.mpr ⟨by simp, by rw [dashMarker_eq]; simp⟩),
    if_neg (by rw [refs_not_prefix_bullet]; simp),
    if_neg (by rw [head_not_prefix_bullet]; simp),
    if_pos (bullet_prefix_bullet i)]
  simp only [List.drop]
  rw [h2, h3]

theorem addBullet_concat_list (acc : List Block) (cur : List Str) (i : Str) :
    addBullet (acc ++ [Block.list cur]) i = acc ++ [Block.list (cur ++ [i])] := by
  unfold addBullet
  rw [List.getLast?_concat]
  simp [List.dropLast_concat]

theorem addBullet_not_list (acc : List Block) (i : Str) (h : endsWithList acc = false) :
    addBullet acc i = acc ++ [Block.list [i]] := by
  unfold addBullet
  unfold endsWithList at h
  split
  · rename_i items heq
    rw [heq] at h
    simp at h
  · rfl

theorem parseLoop_items (items : List Str) :
    ∀ (hstab : ∀ i ∈ items, stableItem i) (rest : List Str) (h : Str) (acc : List Block)
      (cur : List Str),
      parseLoop (items.map (fun i => '-' :: ' ' :: i) ++ rest)
          (some ⟨h, acc ++ [Block.list cur]⟩) =
        parseLoop rest (some ⟨h, acc ++ [Block.list (cur ++ items)]⟩) := by
  induction items with
  | nil => intro hstab rest h acc cur; simp
  | cons i is ih =>
    intro hstab rest h acc cur
    simp only [List.map, List.cons_append]
    rw [parseLoop_item i (hstab i (by simp)) _ _]
    simp only [Option.getD]
    rw [addBullet_concat_list]
    rw [ih (fun i2 hi2 => hstab i2 (by simp [hi2])) rest h acc (cur ++ [i])]
    simp

theorem parseLoop_body (body : List Block) :
    ∀ (hstab : ∀ b ∈ body, stableBlock b) (hadj : noAdjLists body = true)
      (rest : List Str) (h : Str) (acc : List Block)
      (hacc : headIsList body = true → endsWithList acc = false),
      parseLoop (flatL (body.map renderBlockLines) ++ rest) (some ⟨h, acc⟩) =
        parseLoop rest (some ⟨h, acc ++ body⟩) := by
  induction body with
  | nil => intro _ _ rest h acc _; simp [flatL]
  | cons b bs ih =>
    intro hstab hadj rest h acc hacc
    have hadj' : (!(isListBlock b && headIsList bs) && noAdjLists bs) = true := hadj
    have hadj2 : noAdjLists bs = true := by
      cases hx : noAdjLists bs
      · rw [hx, Bool.and_false] at hadj'
        simp at hadj'
      · rfl
    have hhead : isListBlock b = true → headIsList bs = false := by
      intro hib
      cases hx : headIsList bs
      · rfl
      · rw [hib, hx] at hadj'
        simp at hadj'
    cases b with
    | paragraph t =>
      have hst : stableText t := hstab (Block.paragraph t) (by simp)
      simp only [List.map, renderBlockLines, flatL, List.cons_append, List.nil_append,
        List.append_assoc]
      rw [parseLoop_para t hst _ _]
      simp only [Option.getD]
      rw [ih (fun b2 hb2 => hstab b2 (by simp [hb2])) hadj2 rest h
        (acc ++ [Block.paragraph t]) (fun _ => by rw [endsWithList, List.getLast?_concat])]
      simp
    | list items =>
      have hlb : stableBlock (Block.list items) := hstab (Block.list items) (by simp)
      obtain ⟨hine, hit⟩ := hlb
      have hbs : headIsList bs = false := hhead rfl
      match items, hine, hit with
      | i0 :: is, _, hit =>
        simp only [List.map, renderBlockLines, flatL, List.cons_append, List.nil_append,
          List.append_assoc]
        rw [parseLoop_item i0 (hit i0 (by simp)) _ _]
        simp only [Option.getD]
        rw [addBullet_not_list acc i0 (hacc rfl)]
        rw [parseLoop_items is (fun i2 hi2 => hit i2 (by simp [hi2])) _ h acc [i0]]
        rw [ih (fun b2 hb2 => hstab b2 (by simp [hb2])) hadj2 rest h
          (acc ++ [Block.list ([i0] ++ is)])
          (fun hb2 => by rw [hbs] at hb2; exact absurd hb2 (by simp))]
        simp

theorem parseLoop_heading (h : Str) (hh : stableHeading h) (rest : List Str)
    (cur : Option DSection) :
    parseLoop (('#' :: '#' :: ' ' :: h) :: rest) cur =
      emitOpt cur ++ parseLoop rest (some ⟨h, []⟩) := by
  obtain ⟨h1, h2, h3, h4, h5⟩ := hh
  simp only [parseLoop, h4]
  rw [if_neg (not_or.mpr ⟨by simp, by rw [dashMarker_eq]; simp⟩),
    if_neg (by rw [refs_prefix_head, h5]; simp),
    if_pos (head_prefix_head h)]
  simp only [List.drop]
  rw [h3]

theorem parseLoop_sections (S : List DSection) :
    ∀ (hS : ∀ s ∈ S, stableHeading s.heading ∧ stableBody s.body) (cur : Option DSection),
      parseLoop (flatL (S.map renderSectionLines)) cur = emitOpt cur ++ S := by
  induction S with
  | nil => intro _ cur; simp [flatL, parseLoop]
  | cons s S2 ih =>
    intro hS cur
    obtain ⟨hh, hb⟩ := hS s (by simp)
    simp only [List.map, flatL, renderSectionLines, if_neg hh.1, List.cons_append,
      List.nil_append, List.append_assoc]
    rw [parseLoop_heading s.heading hh _ cur]
    rw [parseLoop_body s.body hb.1 hb.2 (flatL (S2.map renderSectionLines)) s.heading []
      (fun _ => rfl)]
    simp only [List.nil_append]
    rw [ih (fun s2 hs2 => hS s2 (by simp [hs2])) (some ⟨s.heading, s.body⟩)]
    simp [emitOpt]

theorem parseLoop_body_none (body : List Block) (hstab : ∀ b ∈ body, stableBlock b)
    (hadj : noAdjLists body = true) (hne : body ≠ []) (rest : List Str) :
    parseLoop (flatL (body.map renderBlockLines) ++ rest) none =
      parseLoop rest (some ⟨[], body⟩) := by
  have hadj2 : ∀ (b : Block) (bs : List Block), body = b :: bs → noAdjLists bs = true := by
    intro b bs he
    rw [he] at hadj
    have hadj' : (!(isListBlock b && headIsList bs) && noAdjLists bs) = true := hadj
    cases hx : noAdjLists bs
    · rw [hx, Bool.and_false] at hadj'
      simp at hadj'
    · rfl
  match body, hne with
  | Block.paragraph t :: bs, _ =>
    have hst : stableText t := hstab (Block.paragraph t) (by simp)
    simp only [List.map, renderBlockLines, flatL, List.cons_append, List.nil_append,
      List.append_assoc]
    rw [parseLoop_para t hst _ none]
    simp only [Option.getD, List.nil_append]
    rw [parseLoop_body bs (fun b2 hb2 => hstab b2 (by simp [hb2]))
      (hadj2 _ _ rfl) rest [] [Block.paragraph t]
      (fun _ => by rw [endsWithList]; rfl)]
    simp
  | Block.list items :: bs, _ =>
    have hlb : stableBlock (Block.list items) := hstab (Block.list items) (by simp)
    obtain ⟨hine, hit⟩ := hlb
    have hbs : headIsList bs = false := by
      have hadj' : (!(isListBlock (Block.list items) && headIsList bs) && noAdjLists bs) =
          true := hadj
      cases hx : headIsList bs
      · rfl
      · rw [hx] at hadj'
        simp [isListBlock] at hadj'
    match items, hine, hit with
    | i0 :: is, _, hit =>
      simp only [List.map, renderBlockLines, flatL, List.cons_append, List.nil_append,
        List.append_assoc]
      rw [parseLoop_item i0 (hit i0 (by simp)) _ none]
      simp only [Option.getD]
      rw [show addBullet ([] : List Block) i0 = [] ++ [Block.list [i0]] from rfl]
      rw [parseLoop_items is (fun i2 hi2 => hit i2 (by simp [hi2])) _ [] [] [i0]]
      rw [parseLoop_body bs (fun b2 hb2 => hstab b2 (by simp [hb2]))
        (hadj2 _ _ rfl) rest [] ([] ++ [Block.list ([i0] ++ is)])
        (fun hb2 => by rw [hbs] at hb2; exact absurd hb2 (by simp))]
      simp

theorem splitLinesL_no_newline (x : Str) (h : '\n' ∉ x) : splitLinesL x = [x] := by
  induction x with
  | nil => rfl
  | cons c cs ih =>
    have hc : ¬c = '\n' := by
      intro e
      exact h (by simp [e])
    simp only [splitLinesL, if_neg hc]
    rw [ih (fun hmem => h (by simp [hmem]))]

theorem splitLinesL_append_newline (x t : Str) (h : '\n' ∉ x) :
    splitLinesL (x ++ '\n' :: t) = x :: splitLinesL t := by
  induction x with
  | nil =>
    simp only [List.nil_append, splitLinesL]
    rw [if_pos trivial]
  | cons c cs ih =>
    have hc : ¬c = '\n' := by
      intro e
      exact h (by simp [e])
    simp only [List.cons_append, splitLinesL, if_neg hc, List.append_eq]
    rw [ih (fun hmem => h (by simp [hmem]))]

theorem splitLinesL_intercalate (ls : List Str) :
    ls ≠ [] → (∀ l ∈ ls, '\n' ∉ l) →
    splitLinesL (intercalateL ['\n'] ls) = ls := by
  induction ls with
  | nil => intro hne; exact absurd rfl hne
  | cons x rest ih =>
    intro _ hnl
    cases rest with
    | nil =>
      simp only [intercalateL]
      exact splitLinesL_no_newline x (hnl x (by simp))
    | cons y rest2 =>
      rw [intercalateL_cons_ne _ _ _ (by simp)]
      rw [show x ++ ['\n'] ++ intercalateL ['\n'] (y :: rest2) =
        x ++ '\n' :: intercalateL ['\n'] (y :: rest2) from by simp]
      rw [splitLinesL_append_newline x _ (hnl x (by simp))]
      rw [ih (by simp) (fun l hl => hnl l (by simp [hl]))]

theorem mem_flatL {α : Type} (a : α) :
    ∀ (ls : List (List α)), a ∈ flatL ls ↔ ∃ l ∈ ls, a ∈ l := by
  intro ls
  induction ls with
  | nil => simp [flatL]
  | cons x xs ih => simp [flatL, List.mem_append, ih]

theorem no_newline_in_section (s : DSection) (hh : '\n' ∉ s.heading)
    (hb : ∀ b ∈ s.body, stableBlock b) :
    ∀ l ∈ renderSectionLines s, '\n' ∉ l := by
  intro l hl
  simp only [renderSectionLines, List.mem_append] at hl
  rcases hl with hl | hl
  · split at hl
    · simp at hl
    · simp only [List.mem_singleton] at hl
      subst hl
      simp [hh]
  · rw [mem_flatL] at hl
    obtain ⟨bl, hbl, hlbl⟩ := hl
    simp only [List.mem_map] at hbl
    obtain ⟨b, hbmem, hble⟩ := hbl
    subst hble
    cases b with
    | paragraph t =>
      have hst : stableText t := hb (Block.paragraph t) hbmem
      simp only [renderBlockLines, List.mem_singleton] at hlbl
      subst hlbl
      exact hst.2.2.2.1
    | list items =>
      have hlb : stableBlock (Block.list items) := hb (Block.list items) hbmem
      simp only [renderBlockLines, List.mem_map] at hlbl
      obtain ⟨i, himem, hie⟩ := hlbl
      subst hie
      have hsi : stableItem i := hlb.2 i himem
      simp [hsi.2.2.2.1]

theorem renderSectionLines_ne_nil_of_headed (s : DSection) (hne : s.heading ≠ []) :
    renderSectionLines s ≠ [] := by
  simp [renderSectionLines, if_neg hne]

theorem renderBlockLines_ne_nil (b : Block) (hb : stableBlock b) :
    renderBlockLines b ≠ [] := by
  cases b with
  | paragraph t => simp [renderBlockLines]
  | list items =>
    have : items ≠ [] := hb.1
    simp [renderBlockLines, this]

theorem bodyLines_ne_nil (body : List Block) (hb : ∀ b ∈ body, stableBlock b)
    (hne : body ≠ []) : flatL (body.map renderBlockLines) ≠ [] := by
  match body, hne with
  | b :: bs, _ =>
    simp only [List.map, flatL]
    intro hemp
    exact renderBlockLines_ne_nil b (hb b (by simp)) (List.append_eq_nil.mp hemp).1

theorem parse_render_stable (S : List DSection) (hS : stableSections S) :
    parseAssistantSections (renderSections S) = S := by
  match S, hS with
  | [], _ => decide
  | s :: S2, ⟨hfirst, hbody, hrest⟩ =>
    have hnl : ∀ l ∈ flatL ((s :: S2).map renderSectionLines), '\n' ∉ l := by
      intro l hl
      rw [mem_flatL] at hl
      obtain ⟨sl, hsl, hlsl⟩ := hl
      simp only [List.mem_map] at hsl
      obtain ⟨s2, hs2mem, hs2e⟩ := hsl
      subst hs2e
      rcases (by simpa using hs2mem : s2 = s ∨ s2 ∈ S2) with he | hmem
      · subst he
        apply no_newline_in_section _ ?_ hbody.1 l hlsl
        rcases hfirst with hh | ⟨hh, _⟩
        · exact hh.2.1
        · rw [hh]
          simp
      · have h2 := hrest s2 hmem
        exact no_newline_in_section s2 h2.1.2.1 h2.2.1 l hlsl
    have hlne : flatL ((s :: S2).map renderSectionLines) ≠ [] := by
      simp only [List.map, flatL]
      intro hemp
      rcases hfirst with hh | ⟨hh, hb⟩
      · exact renderSectionLines_ne_nil_of_headed s hh.1 (List.append_eq_nil.mp hemp).1
      · have h1 := (List.append_eq_nil.mp hemp).1
        rw [renderSectionLines, if_pos hh] at h1
        simp only [List.nil_append] at h1
        exact bodyLines_ne_nil s.body hbody.1 hb h1
    show parseLoop
        (splitLinesL (intercalateL ['\n'] (flatL ((s :: S2).map renderSectionLines)))) none =
      s :: S2
    rw [splitLinesL_intercalate _ hlne hnl]
    rcases hfirst with hh | ⟨hh, hb⟩
    · rw [parseLoop_sections (s :: S2) ?_ none]
      · rfl
      · intro s2 hs2
        rcases (by simpa using hs2 : s2 = s ∨ s2 ∈ S2) with he | hmem
        · subst he
          exact ⟨hh, hbody⟩
        · exact hrest s2 hmem
    · simp only [List.map, flatL]
      rw [renderSectionLines, if_pos hh]
      simp only [List.nil_append]
      rw [parseLoop_body_none s.body hbody.1 hbody.2 hb (flatL (S2.map renderSectionLines))]
      rw [parseLoop_sections S2 (fun s2 h2 => hrest s2 h2) (some ⟨[], s.body⟩)]
      simp only [emitOpt]
      have hse : (⟨[], s.body⟩ : DSection) = s := by
        cases s with
        | mk hd bd =>
          simp only [] at hh ⊢
          rw [hh]
      rw [hse]
      rfl

/-- Claim C6 (as stated) is false: for `x = "****"` the parser yields one
implicit section holding one empty paragraph (the emphasis markers strip to
nothing), which re-serializes to the empty text and re-parses to no
sections at all. -/
theorem c6_counterexample :
    parseAssistantSections (renderSections (parseAssistantSections (toL "****"))) ≠
      parseAssistantSections (toL "****") := by
  decide

/-- Claim C6, amended: the parser is idempotent on render-stable outputs —
whenever the sections parsed from `x` are `stableSections` (headings
nonempty, trimmed, single-line and not beginning case-insensitively with
"references"; only the first section may instead be implicit with a
nonempty body; paragraph texts and list items nonempty, trimmed,
single-line and fixed by emphasis-stripping; texts not readable as `---`,
`- ` or `## ` lines; list blocks nonempty and never adjacent), then
parsing, re-serializing the block text and re-parsing yields the same
sections. In general `parse(render(parse(x))) = parse(x)` fails (see the
counterexample). -/
theorem c6_stable_idempotence (x : Str)
    (h : stableSections (parseAssistantSections x)) :
    parseAssistantSections (renderSections (parseAssistantSections x)) =
      parseAssistantSections x :=
  parse_render_stable (parseAssistantSections x) h

theorem c6_witness :
    stableSections
        (parseAssistantSections (toL "## Summary\n- alpha\n- beta\nTrailing note")) ∧
      parseAssistantSections
          (renderSections
            (parseAssistantSections (toL "## Summary\n- alpha\n- beta\nTrailing note"))) =
        parseAssistantSections (toL "## Summary\n- alpha\n- beta\nTrailing note") :=
  ⟨by decide, c6_stable_idempotence (toL "## Summary\n- alpha\n- beta\nTrailing note")
    (by decide)⟩
